import Mathlib

/-!
# OpenMat: a shallow embedding of the interpreter front end

The C sources under `src/OpenMat` are embedded as pure Lean functions.

Conventions of the embedding.

* A C string (`char*`) is the list of its characters before the terminating
  NUL (`CStr`).  A `char*` that may be `NULL` is an `Option CStr`.
* `double` is idealised by exact rational arithmetic (`ℚ`).
* A heap block obtained from `calloc` is a list of cells together with the
  number of cells that were allocated; a store past the allocated cells is
  kept (it lands in the memory that follows the block) and stays visible
  through the recorded allocation size.  What the store does to the data the
  allocator keeps next to the block is not part of the embedding, which goes on
  as on an intact heap.
* Behaviour that C leaves undefined (dereferencing `NULL`, using the value of
  a non-void function that fell off its end, a store past a stack array) is
  the outer `none` of an `Option` result.
* `strcmp(a,b) == 0` is equality of the two strings.
* Plain `char` is signed, as on x86-64: a byte from `0x80` on is negative and
  is sign-extended when it is promoted to `unsigned int`.
-/

set_option autoImplicit false

namespace OpenMat

/-- A C string: its characters before the terminating NUL. -/
abbrev CStr := List Char

/-! ## Interpreter.c: tokenizer -/

/-- First loop of `tokenize_line`: the number of split characters (spaces)
in the line. -/
def count_split_chars : CStr → Nat
  | [] => 0
  | c :: rest => (if c = ' ' then 1 else 0) + count_split_chars rest

/-- The successive results of `strtok(line, " ")`, `strtok(NULL, " ")`, ...
up to the first `NULL`, following the C standard: delimiters before a token are
skipped and a token runs up to the next delimiter or the end of the string.
The second argument is the token being scanned, most recent character first. -/
def strtok_from : CStr → CStr → List CStr
  | [], cur => if cur = [] then [] else [cur.reverse]
  | c :: rest, cur =>
    if c = ' ' then
      (if cur = [] then strtok_from rest [] else cur.reverse :: strtok_from rest [])
    else strtok_from rest (c :: cur)

/-- All tokens `strtok` yields on a line with the delimiter set `" "`. -/
def strtok_all (line : CStr) : List CStr := strtok_from line []

/-- A `char**` block: `alloc` is the number of `char*` cells obtained from
`calloc`, `cells` the contents of the cells, followed by whatever was stored
past the block. -/
structure TokenArray where
  alloc : Nat
  cells : List (Option CStr)
deriving DecidableEq, Repr

/-- The store `arr[i] = v` on a block whose cells are `cells`; `pad` stands for
the cells between the end of the block and a store further out. -/
def store_at {α : Type} (pad : α) (cells : List α) (i : Nat) (v : α) : List α :=
  if i < cells.length then cells.set i v
  else cells ++ List.replicate (i - cells.length) pad ++ [v]

/-- Second loop of `tokenize_line`: `tokens[index] = strdup(token)` for each
token in turn. -/
def store_tokens : List (Option CStr) → Nat → List CStr → List (Option CStr)
  | cells, _, [] => cells
  | cells, index, t :: ts => store_tokens (store_at none cells index (some t)) (index + 1) ts

/-- Embedding of `tokenize_line`: `calloc(token_num+1, ...)`, the `strtok` loop,
then `tokens[token_num+1] = NULL`. -/
def tokenize_line (line : CStr) : TokenArray :=
  let token_num := count_split_chars line
  let tokens := List.replicate (token_num + 1) (none : Option CStr)
  let tokens := store_tokens tokens 0 (strtok_all line)
  { alloc := token_num + 1, cells := store_at none tokens (token_num + 1) none }

/-- The read `tokens[i]` of a `char**`. -/
def tok (tokens : List (Option CStr)) (i : Nat) : Option CStr := tokens.getD i none

/-- The loop `for(token_num = 0; tokens[token_num] != NULL; token_num++){}`. -/
def count_tokens : List (Option CStr) → Nat
  | [] => 0
  | none :: _ => 0
  | some _ :: rest => count_tokens rest + 1

/-- Embedding of `validate_tokens`. -/
def validate_tokens (tokens : List (Option CStr)) : Bool :=
  let token_num := count_tokens tokens
  if token_num = 3 then
    decide (tok tokens 1 = some "=".toList)
  else if token_num = 4 then
    let correct := decide (tok tokens 2 = some "=".toList)
    if correct then
      decide (tok tokens 0 = some "MAT".toList) || decide (tok tokens 0 = some "NUM".toList)
    else correct
  else false

/-- A NULL-terminated `char**` holding the given tokens. -/
def null_terminated (toks : List CStr) : List (Option CStr) := toks.map some ++ [none]

/-! ## Interpreter.c: expression splitter -/

/-- Embedding of `substring`: the characters `[begin,end)` of `str`.  A negative
size makes the terminating store `newStr[size] = 0` fall before the block, and
a range that starts before the string or runs past its terminator reads outside
the string: both are undefined. A range that ends on the terminator copies it,
which ends the new string there. -/
def substring (str : CStr) (begin_ : Int) (end_ : Int) : Option CStr :=
  let size := end_ - begin_
  if size < 0 then none
  else if size = 0 then some []
  else if begin_ < 0 ∨ (str.length : Int) + 1 < end_ then none
  else some ((str.drop begin_.toNat).take size.toNat)

/-- First loop of `func_sub_blocks`: the value of `str_index` when the loop
`while(c != '(' && c != 0)` stops, i.e. the index of the first `(`, or of the
terminator when there is none. -/
def find_open : CStr → Nat
  | [] => 0
  | c :: rest => if c = '(' then 0 else find_open rest + 1

/-- Second loop of `func_sub_blocks`, run on the characters that follow the
opening parenthesis. `str_index` is the index of the head character, `bps` the
part of `breakpoints` written so far (so `break_index = bps.length`).  The
array `int breakpoints[10]` is a stack array: a store at index 10 or more is
undefined. The terminator itself is read last and changes nothing. -/
def scan_args : CStr → Nat → Int → List Int → Option (List Int)
  | [], _, _, bps => some bps
  | c :: rest, str_index, level, bps =>
    if c = '(' ∨ c = '[' then scan_args rest (str_index + 1) (level + 1) bps
    else if c = ')' ∨ c = ']' then scan_args rest (str_index + 1) (level - 1) bps
    else if c = ',' ∧ level = 0 then
      (if bps.length < 10 then scan_args rest (str_index + 1) level (bps ++ [(str_index : Int)])
       else none)
    else scan_args rest (str_index + 1) level bps

/-- The final loop of `func_sub_blocks`:
`blocks[k] = substring(line, breakpoints[k]+1, breakpoints[k+1])`. -/
def blocks_of (line : CStr) : List Int → Option (List CStr)
  | b0 :: b1 :: rest =>
    match substring line (b0 + 1) b1 with
    | none => none
    | some s =>
      match blocks_of line (b1 :: rest) with
      | none => none
      | some r => some (s :: r)
  | _ => some []

/-- Embedding of `func_sub_blocks`. -/
def func_sub_blocks (line : CStr) : Option (List CStr) :=
  let p := find_open line
  match scan_args (line.drop (p + 1)) (p + 1) 0 [-1, (p : Int)] with
  | none => none
  | some bps =>
    if bps.length < 10 then blocks_of line (bps ++ [(line.length : Int) - 1])
    else none

/-- The text `a1,a2,...,an` of an argument list. -/
def join_args : List CStr → CStr
  | [] => []
  | [a] => a
  | a :: b :: rest => a ++ ',' :: join_args (b :: rest)

/-- The text `f(a1,...,an)` of a call. -/
def call_text (f : CStr) (args : List CStr) : CStr := f ++ '(' :: (join_args args ++ [')'])

/-- Parentheses and brackets of `s` are balanced when read at nesting depth
`d`: no closing character occurs at depth zero and the depth is back to zero at
the end. (The code counts both kinds of bracket on one counter, and so does this
predicate.) -/
def balanced_from : CStr → Nat → Bool
  | [], d => decide (d = 0)
  | c :: rest, d =>
    if c = '(' ∨ c = '[' then balanced_from rest (d + 1)
    else if c = ')' ∨ c = ']' then
      (match d with
       | 0 => false
       | k + 1 => balanced_from rest k)
    else balanced_from rest d

/-- No comma of `s` is at nesting depth zero, reading `s` at depth `d`. -/
def no_top_comma_from : CStr → Nat → Bool
  | [], _ => true
  | c :: rest, d =>
    if c = '(' ∨ c = '[' then no_top_comma_from rest (d + 1)
    else if c = ')' ∨ c = ']' then no_top_comma_from rest (d - 1)
    else if c = ',' ∧ d = 0 then false
    else no_top_comma_from rest d

/-- A well-formed argument: balanced, and without a comma at depth zero. -/
def arg_ok (a : CStr) : Bool := balanced_from a 0 && no_top_comma_from a 0

/-- Embedding of `val_type`, the loop that looks for `(` from index 1 on. -/
def has_paren : CStr → Bool
  | [] => false
  | c :: rest => if c = '(' then true else has_paren rest

/-- Embedding of `val_type`: 0 for a call, 1 for a literal, 2 for a variable. -/
def val_type (text : CStr) : Nat :=
  match text with
  | [] => 2
  | init_char :: rest =>
    if init_char = '[' ∨ init_char = '-' ∨ ('0' ≤ init_char ∧ init_char ≤ '9') then 1
    else if has_paren rest then 0 else 2

/-! ## lin_alg_mac.h, Genesis.c, Multi.c, Core.c, gauss.c: the numeric kernels

The kernels fork one thread per row (or per cell) and join them before
returning; the threads write disjoint cells, so the embedding runs them in
sequence. Matrices are built by the constructors only, so every row has `col`
cells; a read outside a row yields 0. -/

/-- The struct `Mat`: `matrix` holds the rows. -/
structure Mat where
  matrix : List (List ℚ)
  row : Nat
  col : Nat
  valid : Bool
deriving DecidableEq

/-- The block size of `transpose`. -/
def LINE : Nat := 4

/-- The read `mat->matrix[i][j]`. -/
def Mat.at (mat : Mat) (i j : Nat) : ℚ := (mat.matrix.getD i []).getD j 0

/-- Embedding of `zero_constructor`. -/
def zero_constructor (row col : Nat) : Mat :=
  { matrix := List.replicate row (List.replicate col 0), row := row, col := col, valid := true }

/-- Embedding of `arr_constructor`: cell `[i][j]` is `arr[i*col+j]`. -/
def arr_constructor (row col : Nat) (arr : List ℚ) : Mat :=
  { matrix := (List.range row).map (fun i => (List.range col).map (fun j => arr.getD (i * col + j) 0)),
    row := row, col := col, valid := true }

/-- Embedding of `vec_mult`. -/
def vec_mult (arr : List ℚ) (val : ℚ) (size : Nat) : List ℚ :=
  (List.range size).map (fun i => arr.getD i 0 * val)

/-- Embedding of `vec_add`. -/
def vec_add (VecA VecB : List ℚ) (size : Nat) : List ℚ :=
  (List.range size).map (fun i => VecA.getD i 0 + VecB.getD i 0)

/-- Embedding of `vec_compress`. -/
def vec_compress (VecA VecB : List ℚ) (size : Nat) : ℚ :=
  (List.range size).foldl (fun val i => val + VecA.getD i 0 * VecB.getD i 0) 0

/-- Embedding of `line_transpose`: the `LINE` cells read from column `c`,
rows `r .. r+LINE-1`. -/
def line_transpose (read : Mat) (r c : Nat) : List ℚ :=
  (List.range LINE).map (fun d => read.at (r + d) c)

/-- Embedding of `scal_mul`. -/
def scal_mul (mat : Mat) (scalar : ℚ) : Mat :=
  { matrix := (List.range mat.row).map (fun a => vec_mult (mat.matrix.getD a []) scalar mat.col),
    row := mat.row, col := mat.col, valid := true }

/-- Embedding of `add`. -/
def add (A B : Mat) : Mat :=
  { matrix := (List.range A.row).map
      (fun r => vec_add (A.matrix.getD r []) (B.matrix.getD r []) A.col),
    row := A.row, col := A.col, valid := true }

/-- Embedding of `compose`: cell `[m][r]` is the compression of row `m` of `A`
with column `r` of `B`. -/
def compose (A B : Mat) : Mat :=
  { matrix := (List.range A.row).map (fun m => (List.range B.col).map (fun r =>
      vec_compress (A.matrix.getD m []) ((List.range B.row).map (fun i => B.at i r)) B.row)),
    row := A.row, col := B.col, valid := true }

/-- Embedding of `transpose`: row `i` of the result is filled by `row/LINE`
blocks of `line_transpose` and then by the loop over the remaining rows. -/
def transpose (mat : Mat) : Mat :=
  let lines := mat.row / LINE
  { matrix := (List.range mat.col).map (fun i =>
      ((List.range lines).map (fun j => line_transpose mat (j * LINE) i)).flatten ++
      (List.range (mat.row - lines * LINE)).map (fun d => mat.at (lines * LINE + d) i)),
    row := mat.col, col := mat.row, valid := true }

/-- Embedding of `sub_matrix`. -/
def sub_matrix (mat : Mat) (row_len col_len row_index col_index : Nat) : Mat :=
  { matrix := (List.range row_len).map (fun r => (List.range col_len).map
      (fun c => mat.at (row_index + r) (col_index + c))),
    row := row_len, col := col_len, valid := true }

/-- Inner loop body of `elimination`: row `k` is replaced by
`upperRow * (-b/a) + replace_row`. -/
def eliminate_row (newMat upperRow : Mat) (i k : Nat) : Mat :=
  let replace_row := sub_matrix newMat 1 newMat.col k 0
  let a := upperRow.at 0 i
  let b := replace_row.at 0 i
  let elimination_row := scal_mul upperRow (-b / a)
  let newRow := add elimination_row replace_row
  { newMat with matrix := newMat.matrix.set k (newRow.matrix.getD 0 []) }

/-- Outer loop body of `elimination` for pivot row `i`. -/
def eliminate_below (newMat : Mat) (i : Nat) : Mat :=
  let upperRow := sub_matrix newMat 1 newMat.col i 0
  (List.range (newMat.row - (i + 1))).foldl
    (fun m d => eliminate_row m upperRow i (i + 1 + d)) newMat

/-- Embedding of `elimination`. -/
def elimination (mat : Mat) : Mat :=
  (List.range mat.row).foldl eliminate_below (sub_matrix mat mat.row mat.col 0 0)

/-- The loop of `backsubstitution` over the rows `r = n-1, ..., 0`, where `n`
is the first argument; `c` is the column of the unknown being solved and
`results` the solution column so far. A negative `c` indexes before the
arrays. -/
def backsub_rows (mat : Mat) (end_column : Nat) : Nat → Int → List ℚ → Option (List ℚ)
  | 0, _, results => some results
  | r + 1, c, results =>
    if c < 0 then none
    else
      let x := (List.range (end_column - (c.toNat + 1))).foldl
        (fun x d => x - mat.at r (c.toNat + 1 + d) * results.getD (c.toNat + 1 + d) 0)
        (mat.at r end_column)
      let x := x / mat.at r c.toNat
      if c.toNat < results.length then
        backsub_rows mat end_column r (c - 1) (results.set c.toNat x)
      else none

/-- Embedding of `backsubstitution`. -/
def backsubstitution (mat : Mat) : Option Mat :=
  if mat.col = 0 then none
  else
    let end_column := mat.col - 1
    match backsub_rows mat end_column mat.row ((end_column : Int) - 1)
        (List.replicate (mat.col - 1) 0) with
    | none => none
    | some results =>
      some { matrix := results.map (fun x => [x]), row := mat.col - 1, col := 1, valid := true }

/-! ## Interpreter.h: values, variables, function nodes -/

/-- `MATRIX` and `NUMBER`, the two values of a `type` field. -/
def MATRIX : Bool := true
/-- The kind tag of a scalar. -/
def NUMBER : Bool := false

/-- The struct `Value`; `mat` is a pointer and may be `NULL`. -/
structure Value where
  mat : Option Mat
  num : ℚ
  type : Bool
deriving DecidableEq

/-- A `Value` as `calloc` returns it. -/
def Value.zero : Value := { mat := none, num := 0, type := false }

/-- The seven wrapper functions a node's `f_ptr` can point to. -/
inductive FPtr where
  | add_wrapper | mul_wrapper | mat_add_wrapper | scal_mul_wrapper
  | mat_mul_wrapper | transpose_wrapper | solve_wrapper
deriving DecidableEq, Repr

/-- A `Function*`: either `NULL` (`nullF`) or a node with the fields of the
struct `Function`. `opList` holds the cells of the operand array (no cells
when the pointer is `NULL`), `f_ptr` and `returnVal` may be `NULL`. -/
inductive Function where
  | node (opList : List Function) (f_ptr : Option FPtr) (returnVal : Option Value)
      (opNum : Int) (type : Bool)
  | nullF

/-- The field `returnVal` behind a `Function*`; `none` when the pointer is `NULL`. -/
def Function.returnVal? : Function → Option (Option Value)
  | .node _ _ rv _ _ => some rv
  | .nullF => none

/-- The field `type` behind a `Function*`; `none` when the pointer is `NULL`. -/
def Function.type? : Function → Option Bool
  | .node _ _ _ _ ty => some ty
  | .nullF => none

/-- The field `opNum` behind a `Function*`; `none` when the pointer is `NULL`. -/
def Function.opNum? : Function → Option Int
  | .node _ _ _ n _ => some n
  | .nullF => none

/-- The struct `Variable` without its `nextVar` link: a bucket is the list of
its variables in chain order. -/
structure Variable where
  val : Option Value
  name : CStr
  type : Bool
deriving DecidableEq

/-- The struct `Line`; `v` and `name` are pointers and may be `NULL`. -/
structure Line where
  v : Option Value
  name : Option CStr
  new : Bool
  out : Bool
  type : Bool
deriving DecidableEq

/-- The enum `ERR_TYPE`. -/
inductive ERR_TYPE where
  | BAD_LINE | WRONG_PARAMS | NO_DECL | END
deriving DecidableEq, Repr

/-! ## Wrapper.c -/

/-- Embedding of `check_operands`: undefined when an operand cell is missing or
`NULL`. -/
def check_operands : List Function → List Bool → Nat → Option Bool
  | _, _, 0 => some true
  | [], _, _ + 1 => none
  | _, [], _ + 1 => none
  | op :: ops, e :: expected, num + 1 =>
    match op.type? with
    | none => none
    | some ty => if ty ≠ e then some false else check_operands ops expected num

/-- The value `ops[i]->returnVal`, undefined when a pointer on the way is `NULL`. -/
def operand_val (ops : List Function) (i : Nat) : Option Value :=
  match ops.getD i .nullF with
  | .node _ _ (some v) _ _ => some v
  | _ => none

/-- The read `ops[i]->returnVal->mat` followed by a use of the matrix. -/
def operand_mat (ops : List Function) (i : Nat) : Option Mat :=
  match operand_val ops i with
  | some v => v.mat
  | none => none

/-- Embedding of `mul_dimensions`. -/
def mul_dimensions (A B : Mat) : Bool := decide (A.col = B.row)

/-- Embedding of `add_dimensions`. -/
def add_dimensions (A B : Mat) : Bool := decide (A.row = B.row) && decide (A.col = B.col)

/-- Embedding of `add_wrapper`. The outer `none` is the undefined result of
falling off the end of the function (or of a `NULL` dereference); the inner
option is the returned `Value*`. -/
def add_wrapper (ops : List Function) : Option (Option Value) :=
  match check_operands ops [NUMBER, NUMBER] 2 with
  | some true =>
    match operand_val ops 0, operand_val ops 1 with
    | some a, some b => some (some { Value.zero with type := NUMBER, num := a.num + b.num })
    | _, _ => none
  | _ => none

/-- Embedding of `mul_wrapper`. -/
def mul_wrapper (ops : List Function) : Option (Option Value) :=
  match check_operands ops [NUMBER, NUMBER] 2 with
  | some true =>
    match operand_val ops 0, operand_val ops 1 with
    | some a, some b => some (some { Value.zero with type := NUMBER, num := a.num * b.num })
    | _, _ => none
  | _ => none

/-- Embedding of `mat_add_wrapper`: `NULL` on a dimension mismatch. -/
def mat_add_wrapper (ops : List Function) : Option (Option Value) :=
  match check_operands ops [MATRIX, MATRIX] 2 with
  | some true =>
    match operand_mat ops 0, operand_mat ops 1 with
    | some A, some B =>
      if add_dimensions A B then
        some (some { Value.zero with type := MATRIX, mat := some (add A B) })
      else some none
    | _, _ => none
  | _ => none

/-- Embedding of `scal_mul_wrapper`. -/
def scal_mul_wrapper (ops : List Function) : Option (Option Value) :=
  match check_operands ops [NUMBER, MATRIX] 2 with
  | some true =>
    match operand_mat ops 1, operand_val ops 0 with
    | some M, some s => some (some { Value.zero with type := MATRIX, mat := some (scal_mul M s.num) })
    | _, _ => none
  | _ => none

/-- Embedding of `mat_mul_wrapper`: `NULL` on a dimension mismatch. -/
def mat_mul_wrapper (ops : List Function) : Option (Option Value) :=
  match check_operands ops [MATRIX, MATRIX] 2 with
  | some true =>
    match operand_mat ops 0, operand_mat ops 1 with
    | some A, some B =>
      if mul_dimensions A B then
        some (some { Value.zero with type := MATRIX, mat := some (compose A B) })
      else some none
    | _, _ => none
  | _ => none

/-- Embedding of `transpose_wrapper`. -/
def transpose_wrapper (ops : List Function) : Option (Option Value) :=
  match check_operands ops [MATRIX] 1 with
  | some true =>
    match operand_mat ops 0 with
    | some M => some (some { Value.zero with type := MATRIX, mat := some (transpose M) })
    | none => none
  | _ => none

/-- Embedding of `solve_wrapper`: `backsubstitution` first, then `elimination`
of its result, in the order of the source. -/
def solve_wrapper (ops : List Function) : Option (Option Value) :=
  match check_operands ops [MATRIX] 1 with
  | some true =>
    match operand_mat ops 0 with
    | some system =>
      match backsubstitution system with
      | some system => some (some { Value.zero with type := MATRIX, mat := some (elimination system) })
      | none => none
    | none => none
  | _ => none

/-- The call `func->f_ptr(func->opList)`. -/
def call_f_ptr : FPtr → List Function → Option (Option Value)
  | .add_wrapper => add_wrapper
  | .mul_wrapper => mul_wrapper
  | .mat_add_wrapper => mat_add_wrapper
  | .scal_mul_wrapper => scal_mul_wrapper
  | .mat_mul_wrapper => mat_mul_wrapper
  | .transpose_wrapper => transpose_wrapper
  | .solve_wrapper => solve_wrapper

/-! ## Func_table.c -/

/-- The enum `FUNCTION`. -/
inductive FUNCTION where
  | ADD | MUL | MAT_ADD | SCAL_MUL | MAT_MUL | TRAN | SOLVE
deriving DecidableEq, Repr

/-- Embedding of `translate_func_name`; for any other name the function falls
off its end and its value is undefined. -/
def translate_func_name (func_name : CStr) : Option FUNCTION :=
  if func_name = "ADD".toList then some .ADD
  else if func_name = "MUL".toList then some .MUL
  else if func_name = "SCAL_MUL".toList then some .SCAL_MUL
  else if func_name = "MAT_ADD".toList then some .MAT_ADD
  else if func_name = "MAT_MUL".toList then some .MAT_MUL
  else if func_name = "TRAN".toList then some .TRAN
  else if func_name = "SOLVE".toList then some .SOLVE
  else none

/-- The operand counts `ADD_OPS`, `MUL_OPS`, `TRN_OPS`, `SLV_OPS`. -/
def ADD_OPS : Nat := 2
/-- The macro `MUL_OPS`. -/
def MUL_OPS : Nat := 2
/-- The macro `TRN_OPS`. -/
def TRN_OPS : Nat := 1
/-- The macro `SLV_OPS`. -/
def SLV_OPS : Nat := 1

/-- A node as `get_func` fills it: `calloc`ed operand cells, no return value. -/
def new_call (ty : Bool) (f : FPtr) (ops : Nat) : Function :=
  .node (List.replicate ops .nullF) (some f) none (ops : Int) ty

/-- Embedding of `get_func`. -/
def get_func (func_name : CStr) : Option Function :=
  match translate_func_name func_name with
  | none => none
  | some .ADD => some (new_call NUMBER .add_wrapper ADD_OPS)
  | some .MUL => some (new_call NUMBER .mul_wrapper MUL_OPS)
  | some .MAT_ADD => some (new_call MATRIX .mat_add_wrapper ADD_OPS)
  | some .SCAL_MUL => some (new_call MATRIX .scal_mul_wrapper MUL_OPS)
  | some .MAT_MUL => some (new_call MATRIX .mat_mul_wrapper MUL_OPS)
  | some .TRAN => some (new_call MATRIX .transpose_wrapper TRN_OPS)
  | some .SOLVE => some (new_call MATRIX .solve_wrapper SLV_OPS)

/-! ## Func_tree.c -/

mutual
/-- Embedding of `resolve_func`. The result is the node after the call; `none`
when the call runs into undefined behaviour. -/
def resolve_func : Function → Option Function
  | .nullF => none
  | .node opList f_ptr returnVal opNum type =>
    match returnVal with
    | some _ => some (.node opList f_ptr returnVal opNum type)
    | none =>
      match resolve_operands opNum.toNat opList with
      | none => none
      | some opList =>
        match f_ptr with
        | none => none
        | some f =>
          match call_f_ptr f opList with
          | none => none
          | some v => some (.node [] f_ptr v (-1) type)
/-- The loop of `resolve_func` over the first `opNum` operand cells. -/
def resolve_operands : Nat → List Function → Option (List Function)
  | 0, ops => some ops
  | _ + 1, [] => none
  | k + 1, op :: ops =>
    match op with
    | .nullF => none
    | .node l f rv n ty =>
      match (if n ≠ -1 then resolve_func (.node l f rv n ty) else some (.node l f rv n ty)) with
      | none => none
      | some op =>
        match resolve_operands k ops with
        | none => none
        | some ops => some (op :: ops)
end

/-! ## Interpreter.c: literals

`atof` and `strtod` are library functions; they are modelled on decimal
literals (optional white space and sign, digits with an optional fraction, an
optional exponent). The hexadecimal, infinity and NaN forms are not modelled. -/

/-- The C predicate `isspace`. -/
def is_space (c : Char) : Bool :=
  c = ' ' || c = '\t' || c = '\n' || c = '\x0b' || c = '\x0c' || c = '\r'

/-- A decimal digit. -/
def is_digit (c : Char) : Bool := decide ('0' ≤ c) && decide (c ≤ '9')

/-- The value of a decimal digit. -/
def digit_value (c : Char) : Nat := c.toNat - '0'.toNat

/-- Reads a run of digits: the number read so far, the count of digits read so
far, and the rest of the text. -/
def read_digits : CStr → Nat → Nat → Nat × Nat × CStr
  | [], acc, n => (acc, n, [])
  | c :: rest, acc, n =>
    if is_digit c then read_digits rest (acc * 10 + digit_value c) (n + 1)
    else (acc, n, c :: rest)

/-- The exponent part of a decimal literal, if there is one with a digit. -/
def read_exponent (s : CStr) : Int × CStr :=
  match s with
  | c :: t =>
    if c = 'e' ∨ c = 'E' then
      (match t with
       | '-' :: u =>
         (match read_digits u 0 0 with
          | (_, 0, _) => (0, s)
          | (e, _, r) => (-(e : Int), r))
       | '+' :: u =>
         (match read_digits u 0 0 with
          | (_, 0, _) => (0, s)
          | (e, _, r) => ((e : Int), r))
       | _ =>
         (match read_digits t 0 0 with
          | (_, 0, _) => (0, s)
          | (e, _, r) => ((e : Int), r)))
    else (0, s)
  | [] => (0, s)

/-- Model of `strtod(nptr, &endptr)`: the value and the text `endptr` points
to. Without a conversion the value is 0 and `endptr` is `nptr`. -/
def strtod (nptr : CStr) : ℚ × CStr :=
  let s := nptr.dropWhile is_space
  let signed : Bool × CStr :=
    match s with
    | '-' :: t => (true, t)
    | '+' :: t => (false, t)
    | _ => (false, s)
  match read_digits signed.2 0 0 with
  | (ip, ni, s1) =>
    let frac : Nat × Nat × CStr :=
      match s1 with
      | '.' :: t => read_digits t 0 0
      | _ => (0, 0, s1)
    match frac with
    | (fp, nf, s2) =>
      if ni + nf = 0 then (0, nptr)
      else
        match read_exponent s2 with
        | (e, s3) =>
          let mant : ℚ := ((ip * 10 ^ nf + fp : Nat) : ℚ) / ((10 ^ nf : Nat) : ℚ)
          ((if signed.1 then -mant else mant) * (10 : ℚ) ^ e, s3)

/-- Model of `atof`. -/
def atof (text : CStr) : ℚ := (strtod text).1

/-- The loop of `dimension_string_mat`; `current` is the text to convert next,
`r` and `c` the counters. The first argument bounds the number of rounds (each
round consumes at least one character of `current`). -/
def dimension_loop : Nat → CStr → Nat → Nat → Nat × Nat
  | 0, _, r, c => (r, c)
  | fuel + 1, current, r, c =>
    match (strtod current).2 with
    | [] => (r, c)
    | ',' :: rest => if r = 0 then dimension_loop fuel rest r (c + 1) else dimension_loop fuel rest r c
    | ';' :: rest => dimension_loop fuel rest (r + 1) c
    | _ :: rest => dimension_loop fuel rest r c

/-- Embedding of `dimension_string_mat`: the pair `{r, c}`. -/
def dimension_string_mat (text : CStr) : Nat × Nat :=
  match text with
  | [] => (1, 1)
  | _ :: _ =>
    match dimension_loop (text.length + 1) text 0 0 with
    | (r, c) => (r + 1, c + 1)

/-- The loop of `interpret_mat`: `arr[i] = strtod(current, &next)` until `next`
reaches the terminator. Returns the array cells and the final `i`. -/
def fill_loop : Nat → CStr → List ℚ → Nat → List ℚ × Nat
  | 0, _, arr, i => (arr, i)
  | fuel + 1, current, arr, i =>
    match strtod current with
    | (a, next) =>
      match next with
      | [] => (store_at 0 arr i a, i + 1)
      | _ :: rest => fill_loop fuel rest (store_at 0 arr i a) (i + 1)

/-- The cells of `arr` after the loop of `interpret_mat`, and the number of
stores made into it. -/
def interpret_mat_arr (text : CStr) : List ℚ × Nat :=
  match dimension_string_mat text with
  | (r, c) =>
    match text with
    | [] => (List.replicate (r * c) 0, 0)
    | _ :: _ => fill_loop (text.length + 1) text (List.replicate (r * c) 0) 0

/-- Embedding of `interpret_mat`. -/
def interpret_mat (text : CStr) : Mat :=
  match dimension_string_mat text with
  | (r, c) => arr_constructor r c (interpret_mat_arr text).1

/-- Embedding of `interpret_declaration`; the length loop counts the
terminator, so the text handed to `interpret_mat` is `[1, strlen(text))`. -/
def interpret_declaration (text : CStr) : Option Value :=
  match text with
  | '[' :: _ =>
    match substring text 1 (((text.length + 1 : Nat) : Int) - 1) with
    | none => none
    | some bracket_less =>
      some { Value.zero with type := true, mat := some (interpret_mat bracket_less) }
  | _ => some { Value.zero with type := false, num := atof text }

/-! ## Depot.c -/

/-- The macro `HASHSIZE`. -/
def HASHSIZE : Nat := 127

/-- The table of buckets; a bucket is the chain of its variables. -/
abbrev Depot := List (List Variable)

/-- Embedding of `setup_depot`. -/
def setup_depot : Depot := List.replicate HASHSIZE []

/-- The promotion of a `char` to `unsigned int` in `hash ^= c`, with `char`
signed: bytes from 128 on are sign-extended. -/
def char_bits (c : Char) : Nat :=
  let b := c.toNat % 256
  if b < 128 then b else b + (2 ^ 32 - 256)

/-- The loop of `location` on 32-bit unsigned arithmetic. -/
def location_loop : CStr → Nat → Nat
  | [], hash => hash
  | c :: rest, hash => location_loop rest (((hash ^^^ char_bits c) * 16777619) % 2 ^ 32)

/-- Embedding of `location`. -/
def location (str : CStr) : Nat := location_loop str 2166136261 % HASHSIZE

/-- Embedding of `store`: the new variable, with no successor, becomes the
bucket. Undefined when `newVal` is `NULL`. -/
def store (table : Depot) (name : CStr) (newVal : Option Value) : Option Depot :=
  match newVal with
  | none => none
  | some v => some (table.set (location name) [{ val := some v, name := name, type := v.type }])

/-- The loop of `query` along a chain; the outer `none` is the undefined
result of leaving the loop without a `return`. -/
def query_chain (name : CStr) : List Variable → Option (Option Value)
  | [] => none
  | v :: rest => if v.name = name then some v.val else query_chain name rest

/-- Embedding of `query`. -/
def query (table : Depot) (name : CStr) : Option (Option Value) :=
  query_chain name (table.getD (location name) [])

/-- The loop of `reassign` along a chain. -/
def reassign_chain (name : CStr) (newVal : Option Value) : List Variable → List Variable
  | [] => []
  | v :: rest =>
    (if v.name = name then { v with val := newVal } else v) :: reassign_chain name newVal rest

/-- Embedding of `reassign`. -/
def reassign (table : Depot) (name : CStr) (newVal : Option Value) : Depot :=
  table.set (location name) (reassign_chain name newVal (table.getD (location name) []))

/-! ## Interpreter.c: expression trees -/

/-- Embedding of `fetch_identity`. -/
def fetch_identity : Function := .node [] none none (-1) false

/-- The loop of `interpret_func` that fills operand cell `i` from
`blocks[i+1]`, for `i = start, start+1, ...`; `build` is the recursive call. A
block index past the `calloc`ed block reads an undefined pointer. -/
def fill_operands (build : CStr → Option Function) (blocks : List CStr) :
    Nat → Nat → List Function → Option (List Function)
  | 0, _, opList => some opList
  | n + 1, i, opList =>
    match blocks.get? (i + 1) with
    | none => none
    | some b =>
      match build b with
      | none => none
      | some child =>
        if i < opList.length then fill_operands build blocks n (i + 1) (opList.set i child)
        else none

/-- Embedding of `interpret_func`, with a bound on the depth of the recursion. -/
def interpret_func_depth (table : Depot) : Nat → CStr → Option Function
  | 0, _ => none
  | depth + 1, text =>
    let type := val_type text
    if type = 2 then
      match query table text with
      | some (some var_val) => some (.node [] none (some var_val) (-1) var_val.type)
      | _ => none
    else if type = 1 then
      match interpret_declaration text with
      | some v => some (.node [] none (some v) (-1) v.type)
      | none => none
    else
      match func_sub_blocks text with
      | none => none
      | some blocks =>
        match blocks.get? 0 with
        | none => none
        | some name =>
          match get_func name with
          | some (.node opList f_ptr returnVal opNum ty) =>
            (match fill_operands (interpret_func_depth table depth) blocks opNum.toNat 0 opList with
             | none => none
             | some opList => some (.node opList f_ptr returnVal opNum ty))
          | _ => none

/-- Embedding of `interpret_func`. Every argument block is strictly shorter
than the call it is cut from, so the length of the text bounds the depth. -/
def interpret_func (table : Depot) (text : CStr) : Option Function :=
  interpret_func_depth table (text.length + 1) text

/-! ## Error.c -/

/-- The struct `Error` without its `next` link: the stack is the list of its
entries, top first, down to the `END` entry. -/
structure Error where
  err : ERR_TYPE
  line_num : Int
deriving DecidableEq

/-- One line written to the standard output. -/
inductive Printed where
  | wrong_params (ln : Int)
  | malformed (ln : Int)
  | no_decl
  | unknown
  | number (x : ℚ)
  | matrix (m : Mat)
  | blank
deriving DecidableEq

/-- Embedding of `setup_errors`: the `calloc`ed bottom entry. -/
def setup_errors : List Error := [{ err := .END, line_num := 0 }]

/-- Embedding of `add_error`. -/
def add_error (err_list : List Error) (e : ERR_TYPE) (ln : Int) : List Error :=
  if e = .END then err_list else { err := e, line_num := ln } :: err_list

/-- Embedding of `prnt_err_msg`: the lines it prints. The `NO_DECL` case has no
`break` and runs on into the default case. -/
def prnt_err_msg (e : ERR_TYPE) (ln : Int) : List Printed :=
  match e with
  | .WRONG_PARAMS => [.wrong_params ln]
  | .BAD_LINE => [.malformed ln]
  | .NO_DECL => [.no_decl, .unknown]
  | .END => [.unknown]

/-- Embedding of `deconstruct_stack`: the lines printed while the stack is
taken down. Undefined on a stack without its `END` entry. -/
def deconstruct_stack : List Error → Option (List Printed)
  | [] => none
  | e :: rest =>
    if e.err = .END then some []
    else
      match deconstruct_stack rest with
      | none => none
      | some out => some (prnt_err_msg e.err e.line_num ++ out)

/-! ## Interpreter.c and Executor.c: lines -/

/-- The global state of a run: the Depot (`table`), the error stack
(`err_list`), the line counter `*line_number`, and what was printed. -/
structure State where
  table : Depot
  err_list : List Error
  line_num : Int
  stdout : List Printed

/-- Embedding of `start_program`, with the counter `run_program` starts from. -/
def start_program : State :=
  { table := setup_depot, err_list := setup_errors, line_num := 1, stdout := [] }

/-- The tail of `interpret_line` once `func` is built:
`resolve_func(func); newLine->v = func->returnVal; return newLine`. -/
def finish_line (newLine : Line) (func : Function) : Option Line :=
  match resolve_func func with
  | some (.node _ _ returnVal _ _) => some { newLine with v := returnVal }
  | _ => none

/-- Embedding of `interpret_line`: the returned `Line*` (`none` for `NULL`) and
the state after the call. The outer `none` is undefined behaviour. -/
def interpret_line (st : State) (line : CStr) : Option (Option Line × State) :=
  let tokens := (tokenize_line line).cells
  if validate_tokens tokens then
    let first_token := tok tokens 0
    let newLine : Line :=
      if first_token = some "MAT".toList then
        { v := none, name := tok tokens 1, new := true, out := false, type := MATRIX }
      else if first_token = some "NUM".toList then
        { v := none, name := tok tokens 1, new := true, out := false, type := NUMBER }
      else if first_token = some "OUT".toList then
        { v := none, name := none, new := false, out := true, type := false }
      else
        { v := none, name := tok tokens 0, new := false, out := false, type := false }
    if newLine.new then
      match tok tokens 3 with
      | none => none
      | some text =>
        match interpret_func st.table text with
        | some (.node opList f_ptr returnVal opNum type) =>
          if type ≠ newLine.type then some (none, st)
          else
            (match finish_line newLine (.node opList f_ptr returnVal opNum type) with
             | none => none
             | some L => some (some L, st))
        | _ => none
    else
      match tok tokens 2 with
      | none => none
      | some text =>
        match interpret_func st.table text with
        | some (.node opList f_ptr returnVal opNum type) =>
          (match finish_line { newLine with type := type }
              (.node opList f_ptr returnVal opNum type) with
           | none => none
           | some L => some (some L, st))
        | _ => none
  else
    some (none, { st with err_list := add_error st.err_list .BAD_LINE st.line_num })

/-- Embedding of `execute_line`: the returned flag and the state after the
call. -/
def execute_line (st : State) (L : Option Line) : Option (Bool × State) :=
  match L with
  | none => some (false, st)
  | some L =>
    if L.new then
      match L.name with
      | none => none
      | some name =>
        match store st.table name L.v with
        | none => none
        | some table => some (true, { st with table := table })
    else if L.out then
      match L.v with
      | none => none
      | some v =>
        if L.type then
          match v.mat with
          | none => none
          | some m => some (true, { st with stdout := st.stdout ++ [.matrix m, .blank] })
        else some (true, { st with stdout := st.stdout ++ [.number v.num, .blank] })
    else
      match L.name with
      | none => none
      | some name => some (true, { st with table := reassign st.table name L.v })

/-- Embedding of `run_single_line`. -/
def run_single_line (st : State) (line : CStr) : Option (Bool × State) :=
  match interpret_line st line with
  | none => none
  | some (L, st) => execute_line st L

/-- The loop of `run_program` over the lines `read_single_line` returns. On the
first failure the error stack is taken down, its messages printed, and the loop
is left. -/
def run_lines : State → List CStr → Option State
  | st, [] => some st
  | st, line :: rest =>
    match run_single_line st line with
    | none => none
    | some (success, st) =>
      if !success then
        match deconstruct_stack st.err_list with
        | none => none
        | some msgs => some { st with err_list := [], stdout := st.stdout ++ msgs }
      else run_lines { st with line_num := st.line_num + 1 } rest

/-- Embedding of `run_program`: `line_num` starts at 1. -/
def run_program (st : State) (lines : List CStr) : Option State :=
  run_lines { st with line_num := 1 } lines

/-- The statements of `interpret_line` that follow `char** tokens =
tokenize_line(line)`, on the cells of the array `tokens`: the returned `Line*`
and the state after them. -/
def interpret_tokens (st : State) (tokens : List (Option CStr)) :
    Option (Option Line × State) :=
  if validate_tokens tokens then
    let first_token := tok tokens 0
    let newLine : Line :=
      if first_token = some "MAT".toList then
        { v := none, name := tok tokens 1, new := true, out := false, type := MATRIX }
      else if first_token = some "NUM".toList then
        { v := none, name := tok tokens 1, new := true, out := false, type := NUMBER }
      else if first_token = some "OUT".toList then
        { v := none, name := none, new := false, out := true, type := false }
      else
        { v := none, name := tok tokens 0, new := false, out := false, type := false }
    if newLine.new then
      match tok tokens 3 with
      | none => none
      | some text =>
        match interpret_func st.table text with
        | some (.node opList f_ptr returnVal opNum type) =>
          if type ≠ newLine.type then some (none, st)
          else
            (match finish_line newLine (.node opList f_ptr returnVal opNum type) with
             | none => none
             | some L => some (some L, st))
        | _ => none
    else
      match tok tokens 2 with
      | none => none
      | some text =>
        match interpret_func st.table text with
        | some (.node opList f_ptr returnVal opNum type) =>
          (match finish_line { newLine with type := type }
              (.node opList f_ptr returnVal opNum type) with
           | none => none
           | some L => some (some L, st))
        | _ => none
  else
    some (none, { st with err_list := add_error st.err_list .BAD_LINE st.line_num })

/-- The call `run_single_line(line)` from the point where `tokenize_line` has
returned the array `tokens`. -/
def run_single_tokens (st : State) (tokens : List (Option CStr)) : Option (Bool × State) :=
  match interpret_tokens st tokens with
  | none => none
  | some (L, st) => execute_line st L

/-- The loop of `run_program` with the call `run_single_line(line)` as a
parameter: `step st line` is the flag the call returns and the state it leaves
when it is made in the state `st`, and `none` when the call does not return. -/
def run_lines_with (step : State → CStr → Option (Bool × State)) :
    State → List CStr → Option State
  | st, [] => some st
  | st, line :: rest =>
    match step st line with
    | none => none
    | some (success, st) =>
      if !success then
        match deconstruct_stack st.err_list with
        | none => none
        | some msgs => some { st with err_list := [], stdout := st.stdout ++ msgs }
      else run_lines_with step { st with line_num := st.line_num + 1 } rest

/-- The indices of the commas that separate the arguments when the text of the
arguments starts at index `i` of the line. -/
def comma_positions : Nat → List CStr → List Int
  | i, a :: b :: rest => ((i + a.length : Nat) : Int) :: comma_positions (i + a.length + 1) (b :: rest)
  | _, _ => []

/-- An expression built from scalar literals and nested two-argument `ADD` and
`MUL` calls. -/
inductive Expr where
  | lit (text : CStr)
  | add (a b : Expr)
  | mul (a b : Expr)

/-- A scalar literal as the interpreter recognises it inside a call: it starts
with `-` or a decimal digit and holds no parenthesis, bracket or comma. -/
def scalar_literal (s : CStr) : Bool :=
  match s with
  | [] => false
  | c :: _ =>
    (decide (c = '-') || is_digit c) &&
      s.all (fun x => !(decide (x = '(') || decide (x = ')') || decide (x = '[') ||
        decide (x = ']') || decide (x = ',')))

/-- Every literal of the expression is a scalar literal. -/
def Expr.well_formed : Expr → Bool
  | .lit s => scalar_literal s
  | .add a b => a.well_formed && b.well_formed
  | .mul a b => a.well_formed && b.well_formed

/-- The text of the expression. -/
def Expr.text : Expr → CStr
  | .lit s => s
  | .add a b => call_text "ADD".toList [a.text, b.text]
  | .mul a b => call_text "MUL".toList [a.text, b.text]

/-- The arithmetic value of the expression. -/
def Expr.value : Expr → ℚ
  | .lit s => atof s
  | .add a b => a.value + b.value
  | .mul a b => a.value * b.value

/-- The nesting depth of the calls of the expression. -/
def Expr.depth : Expr → Nat
  | .lit _ => 0
  | .add a b => max a.depth b.depth + 1
  | .mul a b => max a.depth b.depth + 1

/-- The tree `interpret_func` is expected to build for the expression. -/
def Expr.tree : Expr → Function
  | .lit s => .node [] none (some { Value.zero with type := false, num := atof s }) (-1) false
  | .add a b => .node [a.tree, b.tree] (some .add_wrapper) none 2 NUMBER
  | .mul a b => .node [a.tree, b.tree] (some .mul_wrapper) none 2 NUMBER

/-- The node `resolve_func` is expected to leave for the expression. -/
def Expr.resolved : Expr → Function
  | .lit s => .node [] none (some { Value.zero with type := false, num := atof s }) (-1) false
  | .add a b =>
    .node [] (some .add_wrapper) (some { mat := none, num := a.value + b.value, type := NUMBER })
      (-1) NUMBER
  | .mul a b =>
    .node [] (some .mul_wrapper) (some { mat := none, num := a.value * b.value, type := NUMBER })
      (-1) NUMBER

/-- The expression `ADD(MUL(2,3),4)`. -/
def add_mul_example : Expr :=
  .add (.mul (.lit "2".toList) (.lit "3".toList)) (.lit "4".toList)

/-- The matrix has `row` rows of `col` cells each, as the constructors build
it: the condition under which the reads `mat->matrix[i][j]` of the kernels, for
`i < row` and `j < col`, stay inside the rows. -/
def Mat.well_formed (m : Mat) : Bool :=
  decide (m.matrix.length = m.row) && m.matrix.all (fun r => decide (r.length = m.col))

/-- The cell `[i][j]` of the matrix, read with bounds: `none` outside the rows. -/
def Mat.cell? (m : Mat) (i j : Nat) : Option ℚ :=
  match m.matrix.get? i with
  | none => none
  | some r => r.get? j

/-- The Matrix value that holds `m`. -/
def matrix_value (m : Mat) : Value := { mat := some m, num := 0, type := MATRIX }

/-- The Scalar value that holds `x`. -/
def scalar_value (x : ℚ) : Value := { mat := none, num := x, type := NUMBER }

/-- The 1x2 matrix with the row (1,2). -/
def mat_row_1_2 : Mat := { matrix := [[1, 2]], row := 1, col := 2, valid := true }

/-- The 1x2 matrix with the row (3,4). -/
def mat_row_3_4 : Mat := { matrix := [[3, 4]], row := 1, col := 2, valid := true }

/-- The 2x2 matrix with the rows (1,2) and (3,4). -/
def mat_square : Mat := { matrix := [[1, 2], [3, 4]], row := 2, col := 2, valid := true }

/-- The 1x1 matrix with the cell 5. -/
def mat_single : Mat := { matrix := [[5]], row := 1, col := 1, valid := true }

/-- The error stack after `setup_errors` and one `add_error` for each entry of
the list, in order. -/
def log_all (es : List (ERR_TYPE × Int)) : List Error :=
  es.foldl (fun err_list e => add_error err_list e.1 e.2) setup_errors

/-- Every variable of the Depot carries the kind tag of its value:
`Variable.type == Variable.val->type`. -/
def kinds_agree (table : Depot) : Bool :=
  table.all (fun bucket => bucket.all (fun var =>
    match var.val with
    | some x => var.type == x.type
    | none => false))

/-- The augmented matrix of the system `2x + y = 5`, `x - y = 1`. -/
def system_2_3 : Mat :=
  { matrix := [[2, 1, 5], [1, -1, 1]], row := 2, col := 3, valid := true }

/-- The 1x1 matrix with the cell 1. -/
def mat_single_1 : Mat := { matrix := [[1]], row := 1, col := 1, valid := true }

/-- The 5x2 matrix with the rows (1,2), (3,4), (5,6), (7,8), (9,10): its row
count is not a multiple of `LINE`. -/
def mat_5_2 : Mat :=
  { matrix := [[1, 2], [3, 4], [5, 6], [7, 8], [9, 10]], row := 5, col := 2, valid := true }

/-- The row-reduced augmented matrix `[2,1,5;0,3,3]` of the system
`2a + b = 5`, `3b = 3`. -/
def triangular_2_3 : Mat :=
  { matrix := [[2, 1, 5], [0, 3, 3]], row := 2, col := 3, valid := true }

/-- The divisors of `backsubstitution`: the cells `mat->matrix[r][c]` by which
the loop over the rows `r = n-1, ..., 0` divides, in the order of the loop, with
`r` and `c` stepping as in `backsub_rows`. -/
def backsub_divisors (mat : Mat) : Nat → Int → List ℚ
  | 0, _ => []
  | r + 1, c => if c < 0 then [] else mat.at r c.toNat :: backsub_divisors mat r (c - 1)

/-- The column `x` satisfies equation `r` of the augmented matrix `M`: the sum
over the `col-1` unknowns `j` of `M[r][j]*x[j][0]` equals `M[r][col-1]`. -/
def equation_holds (M x : Mat) (r : Nat) : Prop :=
  ∑ j in Finset.range (M.col - 1), M.at r j * x.at j 0 = M.at r (M.col - 1)

/-- The matrix `newMat` of `elimination` at the start of iteration `i` of the
outer loop. -/
def elimination_stage (mat : Mat) (i : Nat) : Mat :=
  (List.range i).foldl eliminate_below (sub_matrix mat mat.row mat.col 0 0)

/-- The pivot of iteration `i` of `elimination`: the cell `a =
upperRow->matrix[0][i]` of the copy of row `i` taken at the start of the
iteration. -/
def pivot (mat : Mat) (i : Nat) : ℚ :=
  (sub_matrix (elimination_stage mat i) 1 (elimination_stage mat i).col i 0).at 0 i

/-- The 32-bit FNV-1a hash in the words of the specification, for comparison
with `location_loop`: start from the offset 2166136261 and, for every byte of
the string, XOR the byte (a value below 256) into the hash and multiply by the
prime 16777619, modulo `2^32`. -/
def fnv1a_reference (s : CStr) : Nat :=
  s.foldl (fun hash c => ((hash ^^^ (c.toNat % 256)) * 16777619) % 2 ^ 32) 2166136261

/-- The string of the single byte `0x80`. -/
def high_byte_name : CStr := [Char.ofNat 128]

/-- The augmented matrix of the system `x + y = 2`, `x + y = 3`, which has no
solution. -/
def system_singular : Mat :=
  { matrix := [[1, 1, 2], [1, 1, 3]], row := 2, col := 3, valid := true }

/-! # Properties

## Statement validation -/

theorem count_tokens_terminated (toks : List CStr) (junk : List (Option CStr)) :
    count_tokens (toks.map some ++ none :: junk) = toks.length := by
  induction toks with
  | nil => simp [count_tokens]
  | cons t ts ih => simp [count_tokens, ih]

theorem tok_terminated (toks : List CStr) (junk : List (Option CStr)) (i : Nat)
    (h : i < toks.length) : tok (toks.map some ++ none :: junk) i = toks.get? i := by
  unfold tok
  rw [List.getD_eq_getElem?_getD, List.getElem?_append_left (by simpa using h)]
  simp [List.getElem?_map, List.getElem?_eq_getElem h]

/-- C7: on a NULL-terminated token array, `validate_tokens` returns true exactly
when there are 3 tokens with `tokens[1] == "="`, or 4 tokens with `tokens[0]` one
of `MAT`, `NUM` and `tokens[2] == "="`; for any other token sequence (also one of
0, 1, 2 or 5 and more tokens) it returns false. -/
theorem validate_tokens_iff (toks : List CStr) (junk : List (Option CStr)) :
    validate_tokens (toks.map some ++ none :: junk) = true ↔
      (toks.length = 3 ∧ toks.get? 1 = some "=".toList) ∨
      (toks.length = 4 ∧ (toks.get? 0 = some "MAT".toList ∨ toks.get? 0 = some "NUM".toList) ∧
        toks.get? 2 = some "=".toList) := by
  unfold validate_tokens
  simp only [count_tokens_terminated]
  by_cases h3 : toks.length = 3
  · simp [h3, tok_terminated toks junk 1 (by omega)]
  · by_cases h4 : toks.length = 4
    · have e0 := tok_terminated toks junk 0 (by omega)
      have e2 := tok_terminated toks junk 2 (by omega)
      simp [h3, h4, e0, e2]
      tauto
    · simp [h3, h4]

/-! ## Tokenizer -/

theorem strtok_from_length (line cur : CStr) :
    (strtok_from line cur).length ≤ count_split_chars line + 1 := by
  induction line generalizing cur with
  | nil => unfold strtok_from; split <;> simp [count_split_chars]
  | cons c rest ih =>
    unfold strtok_from
    by_cases hc : c = ' '
    · have h0 := ih []
      by_cases hcur : cur = []
      · simp only [hc, hcur, count_split_chars, if_true]; omega
      · simp only [hc, hcur, count_split_chars, if_true, if_false, List.length_cons]; omega
    · have h1 := ih (c :: cur)
      simp only [hc, count_split_chars, if_false] at h1 ⊢
      omega

theorem strtok_all_length (line : CStr) :
    (strtok_all line).length ≤ count_split_chars line + 1 :=
  strtok_from_length line []

theorem modifyHead_self {α : Type} (l : List α) : l.modifyHead (fun first => first) = l := by
  cases l <;> rfl

/-- The tokens of `strtok` are the non-empty pieces of the line cut at every
space, in order. -/
theorem strtok_from_eq_splitOn (line cur : CStr) :
    strtok_from line cur =
      ((line.splitOn ' ').modifyHead (fun first => cur.reverse ++ first)).filter (fun t => t ≠ []) := by
  induction line generalizing cur with
  | nil =>
    unfold strtok_from
    by_cases h : cur = [] <;> simp [List.splitOn, h]
  | cons c rest ih =>
    unfold strtok_from
    by_cases hc : c = ' '
    · subst hc
      have h0 := ih []
      by_cases h : cur = []
      · simp [List.splitOn, List.splitOnP_cons, h, modifyHead_self] at h0 ⊢
        simpa [List.splitOn] using h0
      · simp [List.splitOn, List.splitOnP_cons, h, modifyHead_self] at h0 ⊢
        simpa [List.splitOn] using h0
    · have h1 := ih (c :: cur)
      simp [List.splitOn, List.splitOnP_cons, hc] at h1 ⊢
      rw [h1]
      rfl

theorem strtok_all_eq_splitOn (line : CStr) :
    strtok_all line = (line.splitOn ' ').filter (fun t => t ≠ []) := by
  unfold strtok_all
  rw [strtok_from_eq_splitOn]
  simp [modifyHead_self]

theorem store_at_length_of_lt {α : Type} (pad : α) (cells : List α) (i : Nat) (v : α)
    (h : i < cells.length) : (store_at pad cells i v).length = cells.length := by
  simp [store_at, h]

theorem take_succ_set {α : Type} (cells : List α) (i : Nat) (v : α) (h : i < cells.length) :
    (cells.set i v).take (i + 1) = cells.take i ++ [v] := by
  rw [List.set_eq_take_append_cons_drop, if_pos h]
  have hl : (List.take i cells).length = i := by simp; omega
  rw [List.take_append_eq_append_take, hl]
  simp [List.take_take]

theorem store_tokens_eq (cells : List (Option CStr)) (index : Nat) (ts : List CStr)
    (h : index + ts.length ≤ cells.length) :
    store_tokens cells index ts =
      cells.take index ++ ts.map some ++ cells.drop (index + ts.length) := by
  induction ts generalizing cells index with
  | nil => simp [store_tokens]
  | cons t ts ih =>
    simp only [List.length_cons] at h
    have hlt : index < cells.length := by omega
    unfold store_tokens
    rw [ih _ _ (by rw [store_at_length_of_lt _ _ _ _ hlt]; omega)]
    simp only [store_at, hlt, if_true, List.map_cons, List.length_cons]
    rw [take_succ_set _ _ _ hlt, List.drop_set_of_lt _ _ (by omega)]
    simp [Nat.add_assoc, Nat.add_comm 1]

/-- The block `tokenize_line` returns: the tokens of `strtok`, the cells left at
`NULL` by `calloc`, and then the terminator, stored in the cell that follows the
block. -/
theorem tokenize_line_eq (line : CStr) :
    tokenize_line line =
      { alloc := count_split_chars line + 1,
        cells := (strtok_all line).map some ++
          List.replicate (count_split_chars line + 1 - (strtok_all line).length) none ++ [none] } := by
  have hle := strtok_all_length line
  unfold tokenize_line
  simp only
  rw [store_tokens_eq _ _ _ (by simpa using hle)]
  simp only [store_at, List.take_zero, List.nil_append, Nat.zero_add, List.drop_replicate,
    List.length_append, List.length_map, List.length_replicate]
  have e1 : (strtok_all line).length + (count_split_chars line + 1 - (strtok_all line).length) =
      count_split_chars line + 1 := by omega
  rw [e1]
  simp

/-- For every line the terminator store of `tokenize_line` is at index `alloc`,
one cell past the block of `alloc` cells. -/
theorem tokenize_line_overflow (line : CStr) :
    (tokenize_line line).cells.length = (tokenize_line line).alloc + 1 := by
  have hle := strtok_all_length line
  rw [tokenize_line_eq]
  simp
  omega

/-- C9 (evaluation at the line `a b c`): the block has 3 cells, the three tokens
fill it, and the terminating `NULL` is stored in cell 3, past the end of the
block. -/
theorem tokenize_line_terminator_past_block :
    tokenize_line "a b c".toList =
      { alloc := 3, cells := [some "a".toList, some "b".toList, some "c".toList, none] } := by
  decide

/-! ## Depot and statements -/

theorem setup_depot_length : setup_depot.length = HASHSIZE := by
  simp [setup_depot]

theorem location_lt (name : CStr) : location name < HASHSIZE := by
  unfold location
  exact Nat.mod_lt _ (by decide)

theorem query_store (table : Depot) (name : CStr) (v : Value) (h : table.length = HASHSIZE) :
    ∃ t, store table name (some v) = some t ∧ query t name = some (some v) := by
  refine ⟨_, rfl, ?_⟩
  have hl : location name < table.length := by rw [h]; exact location_lt name
  simp [query, List.getD_eq_getElem?_getD, List.getElem?_set, hl, query_chain]

/-- C2: for every name `n` and value `v`, `query(n)` after `store(n, v)` returns
`v`; and after the line `NUM x = 5` has been run, the line `OUT = x` is
interpreted as an Output statement that carries the Scalar 5. -/
theorem store_then_query (table : Depot) (name : CStr) (v : Value)
    (h : table.length = HASHSIZE) :
    (∃ t, store table name (some v) = some t ∧ query t name = some (some v)) ∧
    (∃ st, run_single_line start_program "NUM x = 5".toList = some (true, st) ∧
      (interpret_line st "OUT = x".toList).map Prod.fst =
        some (some { v := some { mat := none, num := 5, type := NUMBER }, name := none,
                     new := false, out := true, type := NUMBER })) := by
  refine ⟨query_store table name v h,
    { start_program with
      table := setup_depot.set (location "x".toList)
        [{ val := some { mat := none, num := 5, type := NUMBER }, name := "x".toList,
           type := NUMBER }] }, ?_, ?_⟩
  · with_unfolding_all rfl
  · with_unfolding_all rfl

theorem store_then_query_witness :
    setup_depot.length = HASHSIZE ∧
    ((∃ t, store setup_depot "x".toList (some { mat := none, num := 5, type := NUMBER }) = some t ∧
        query t "x".toList = some (some { mat := none, num := 5, type := NUMBER })) ∧
     (∃ st, run_single_line start_program "NUM x = 5".toList = some (true, st) ∧
      (interpret_line st "OUT = x".toList).map Prod.fst =
        some (some { v := some { mat := none, num := 5, type := NUMBER }, name := none,
                     new := false, out := true, type := NUMBER }))) :=
  ⟨by simp [setup_depot],
    store_then_query setup_depot "x".toList { mat := none, num := 5, type := NUMBER }
      (by simp [setup_depot])⟩

/-- C3 (counterexample): `MAT m = [1,2;3,4]` followed by `MAT m = [5,6;7,8]`.
Both lines report success, no diagnostic is logged or printed, the run reaches
the end of the script, and `m` is bound to the second matrix afterwards. -/
theorem redeclare_not_rejected :
    ∃ st1 st2 st,
      run_single_line start_program "MAT m = [1,2;3,4]".toList = some (true, st1) ∧
      run_single_line { st1 with line_num := 2 } "MAT m = [5,6;7,8]".toList = some (true, st2) ∧
      st2.err_list = setup_errors ∧
      query st1.table "m".toList =
        some (some { mat := some (arr_constructor 2 2 [1, 2, 3, 4]), num := 0, type := MATRIX }) ∧
      query st2.table "m".toList =
        some (some { mat := some (arr_constructor 2 2 [5, 6, 7, 8]), num := 0, type := MATRIX }) ∧
      run_program start_program ["MAT m = [1,2;3,4]".toList, "MAT m = [5,6;7,8]".toList] = some st ∧
      st.stdout = [] ∧ st.line_num = 3 := by
  refine ⟨{ start_program with
      table := setup_depot.set (location "m".toList)
        [{ val := some { mat := some (arr_constructor 2 2 [1, 2, 3, 4]), num := 0, type := MATRIX },
           name := "m".toList, type := MATRIX }] },
    { start_program with
      line_num := 2
      table := setup_depot.set (location "m".toList)
        [{ val := some { mat := some (arr_constructor 2 2 [5, 6, 7, 8]), num := 0, type := MATRIX },
           name := "m".toList, type := MATRIX }] },
    { start_program with
      line_num := 3
      table := setup_depot.set (location "m".toList)
        [{ val := some { mat := some (arr_constructor 2 2 [5, 6, 7, 8]), num := 0, type := MATRIX },
           name := "m".toList, type := MATRIX }] }, ?_, ?_, ?_, ?_, ?_, ?_, ?_, ?_⟩
  · with_unfolding_all rfl
  · with_unfolding_all rfl
  · rfl
  · with_unfolding_all rfl
  · with_unfolding_all rfl
  · with_unfolding_all rfl
  · rfl
  · rfl

/-- C3 (amended): a Declare statement succeeds whether or not its name is
already bound. `execute_line` returns true, logs and prints nothing, and
replaces the binding: `query` returns the newly declared value afterwards. -/
theorem declare_replaces_binding (st : State) (name : CStr) (v : Value) (ty : Bool)
    (hlen : st.table.length = HASHSIZE) :
    ∃ st2, execute_line st
        (some { v := some v, name := some name, new := true, out := false, type := ty }) =
          some (true, st2) ∧
      st2.err_list = st.err_list ∧ st2.stdout = st.stdout ∧
      query st2.table name = some (some v) := by
  obtain ⟨t, ht, hq⟩ := query_store st.table name v hlen
  refine ⟨{ st with table := t }, ?_, rfl, rfl, hq⟩
  simp [execute_line, ht]

theorem declare_replaces_binding_witness :
    (setup_depot.set (location "m".toList)
        [{ val := some { mat := none, num := 1, type := NUMBER }, name := "m".toList,
           type := NUMBER }]).length = HASHSIZE ∧
    ∃ st2, execute_line
        { start_program with
          table := setup_depot.set (location "m".toList)
            [{ val := some { mat := none, num := 1, type := NUMBER }, name := "m".toList,
               type := NUMBER }] }
        (some { v := some { mat := none, num := 2, type := NUMBER }, name := some "m".toList,
                new := true, out := false, type := NUMBER }) = some (true, st2) ∧
      st2.err_list = start_program.err_list ∧ st2.stdout = start_program.stdout ∧
      query st2.table "m".toList = some (some { mat := none, num := 2, type := NUMBER }) :=
  ⟨by simp [setup_depot],
    declare_replaces_binding
      { start_program with
        table := setup_depot.set (location "m".toList)
          [{ val := some { mat := none, num := 1, type := NUMBER }, name := "m".toList,
             type := NUMBER }] }
      "m".toList { mat := none, num := 2, type := NUMBER }
      NUMBER (by simp [setup_depot, start_program])⟩

/-- C4 (evaluation at the script whose first line is `x = 3`, `x` unbound): the
line reports success, nothing is logged, the state is unchanged, and the run
goes on to the end of the script without printing a diagnostic. -/
theorem assign_undeclared_succeeds :
    run_single_line start_program "x = 3".toList = some (true, start_program) ∧
    run_program start_program ["x = 3".toList] = some { start_program with line_num := 2 } := by
  constructor
  · with_unfolding_all rfl
  · with_unfolding_all rfl

/-- C8 (evaluation at the lines `MAT = 5` and `NUM = 5`): the lines pass
`validate_tokens`, are taken for declarations because of their first token, and
`interpret_func` is handed `tokens[3]`, the `NULL` terminator: the behaviour is
undefined, no Assign statement is built. -/
theorem three_token_MAT_not_assign :
    validate_tokens (tokenize_line "MAT = 5".toList).cells = true ∧
    tok (tokenize_line "MAT = 5".toList).cells 3 = none ∧
    interpret_line start_program "MAT = 5".toList = none ∧
    validate_tokens (tokenize_line "NUM = 5".toList).cells = true ∧
    interpret_line start_program "NUM = 5".toList = none := by
  refine ⟨?_, ?_, ?_, ?_, ?_⟩
  · decide
  · decide
  · with_unfolding_all rfl
  · decide
  · with_unfolding_all rfl

/-! ## The run loop -/

theorem interpret_line_state (st : State) (line : CStr) (L : Option Line) (st1 : State)
    (h : interpret_line st line = some (L, st1)) :
    st1 = st ∨
      (L = none ∧
        st1 = { st with err_list := { err := .BAD_LINE, line_num := st.line_num } :: st.err_list }) := by
  unfold interpret_line at h
  simp only at h
  repeat' split at h
  all_goals cases h
  all_goals first
    | exact Or.inl rfl
    | exact Or.inr ⟨rfl, by simp [add_error]⟩

theorem run_single_line_eq_tokens (st : State) (line : CStr) :
    run_single_line st line = run_single_tokens st (tokenize_line line).cells := rfl

/-- The loop of `run_program` is `run_lines_with` at `run_single_line`. -/
theorem run_lines_eq_with (st : State) (lines : List CStr) :
    run_lines st lines = run_lines_with run_single_line st lines := by
  induction lines generalizing st with
  | nil => rfl
  | cons l ls ih =>
    simp only [run_lines, run_lines_with]
    split
    · rfl
    · rename_i success st2 _
      cases success
      · rfl
      · simp only [Bool.not_true, Bool.false_eq_true, if_false]
        exact ih _

theorem find_open_append (f rest : CStr) (hf : '(' ∉ f) :
    find_open (f ++ '(' :: rest) = f.length := by
  induction f with
  | nil => simp [find_open]
  | cons c cs ih =>
    simp only [List.mem_cons, not_or] at hf
    have hc : c ≠ '(' := fun h => hf.1 h.symm
    simp [find_open, hc, ih hf.2]

theorem scan_args_arg (a rest : CStr) (d : Nat) (i : Nat) (bps : List Int)
    (hb : balanced_from a d = true) (hc : no_top_comma_from a d = true) :
    scan_args (a ++ rest) i (d : Int) bps = scan_args rest (i + a.length) 0 bps := by
  induction a generalizing d i with
  | nil =>
    simp only [balanced_from, decide_eq_true_eq] at hb
    subst hb
    simp
  | cons c cs ih =>
    simp only [List.cons_append, List.length_cons]
    unfold balanced_from at hb
    unfold no_top_comma_from at hc
    rw [scan_args]
    by_cases h1 : c = '(' ∨ c = '['
    · simp only [h1, if_true] at hb hc ⊢
      have := ih (d + 1) (i + 1) hb hc
      rw [show ((d : Int) + 1) = ((d + 1 : Nat) : Int) by push_cast; ring, this,
        show i + 1 + cs.length = i + (cs.length + 1) by omega]
    · simp only [h1, if_false] at hb hc ⊢
      by_cases h2 : c = ')' ∨ c = ']'
      · simp only [h2, if_true] at hb hc ⊢
        cases d with
        | zero => simp at hb
        | succ k =>
          simp only [Nat.add_sub_cancel] at hb hc
          have := ih k (i + 1) hb hc
          rw [show (((k + 1 : Nat) : Int) - 1) = (k : Int) by push_cast; ring, this,
            show i + 1 + cs.length = i + (cs.length + 1) by omega]
      · simp only [h2, if_false] at hb hc ⊢
        by_cases h3 : c = ',' ∧ d = 0
        · simp [h3] at hc
        · have h3' : ¬ (c = ',' ∧ (d : Int) = 0) := by
            intro h; exact h3 ⟨h.1, by exact_mod_cast h.2⟩
          simp only [h3, h3', if_false] at hb hc ⊢
          rw [ih d (i + 1) hb hc, show i + 1 + cs.length = i + (cs.length + 1) by omega]

theorem scan_args_join (args : List CStr) (i : Nat) (bps : List Int)
    (hne : args ≠ [])
    (hok : ∀ a ∈ args, arg_ok a = true)
    (hlen : bps.length + args.length ≤ 11) :
    scan_args (join_args args ++ [')']) i 0 bps = some (bps ++ comma_positions i args) := by
  induction args generalizing i bps with
  | nil => exact absurd rfl hne
  | cons a rest ih =>
    have ha := hok a (by simp)
    simp only [arg_ok, Bool.and_eq_true] at ha
    cases rest with
    | nil =>
      simp only [join_args, comma_positions, List.append_nil]
      have := scan_args_arg a [')'] 0 i bps ha.1 ha.2
      simp only [Nat.cast_zero] at this
      rw [this]
      simp [scan_args]
    | cons b t =>
      simp only [join_args, comma_positions, List.append_assoc, List.cons_append]
      have := scan_args_arg a (',' :: (join_args (b :: t) ++ [')'])) 0 i bps ha.1 ha.2
      simp only [Nat.cast_zero] at this
      rw [this, scan_args]
      simp only [List.length_cons] at hlen
      have hlt : bps.length < 10 := by omega
      simp only [hlt, if_true]
      have hih := ih (i + a.length + 1) (bps ++ [((i + a.length : Nat) : Int)]) (by simp)
        (fun x hx => hok x (by simp at hx ⊢; right; exact hx))
        (by simp only [List.length_append, List.length_cons, List.length_nil]; omega)
      simp at hih ⊢
      exact hih

theorem substring_middle (pre a rest : CStr) :
    substring (pre ++ a ++ rest) (pre.length : Int) ((pre.length + a.length : Nat) : Int) = some a := by
  unfold substring
  simp only
  have hs : ((pre.length + a.length : Nat) : Int) - (pre.length : Int) = (a.length : Int) := by
    push_cast; ring
  rw [hs]
  by_cases h0 : a.length = 0
  · have : a = [] := List.length_eq_zero.mp h0
    subst this
    simp
  · have h1 : ¬ ((a.length : Int) < 0) := by omega
    have h2 : ¬ ((a.length : Int) = 0) := by omega
    have h3 : ¬ ((pre.length : Int) < 0 ∨
        (((pre ++ a ++ rest).length : Nat) : Int) + 1 < ((pre.length + a.length : Nat) : Int)) := by
      simp only [List.length_append]; push_cast; omega
    simp only [h1, h2, h3, if_false]
    simp [List.append_assoc]

theorem blocks_of_args (args : List CStr) (pre : CStr) (hne : args ≠ []) :
    blocks_of (pre ++ join_args args ++ [')'])
      (((pre.length : Int) - 1) :: (comma_positions pre.length args ++
        [(((pre ++ join_args args ++ [')']).length : Nat) : Int) - 1])) = some args := by
  induction args generalizing pre with
  | nil => exact absurd rfl hne
  | cons a rest ih =>
    cases rest with
    | nil =>
      simp only [join_args, comma_positions, List.nil_append]
      have hlast : (((pre ++ a ++ [')']).length : Nat) : Int) - 1 =
          ((pre.length + a.length : Nat) : Int) := by
        simp only [List.length_append, List.length_cons, List.length_nil]; push_cast; ring
      rw [hlast]
      simp only [blocks_of, sub_add_cancel, substring_middle]
    | cons b t =>
      have hih := ih (pre ++ a ++ [',']) (by simp)
      have hline : pre ++ join_args (a :: b :: t) ++ [')'] =
          pre ++ a ++ [','] ++ join_args (b :: t) ++ [')'] := by
        simp [join_args, List.append_assoc]
      have hline2 : pre ++ join_args (a :: b :: t) ++ [')'] =
          pre ++ a ++ (',' :: (join_args (b :: t) ++ [')'])) := by
        simp [join_args, List.append_assoc]
      have hpre : (((pre ++ a ++ [',']).length : Nat) : Int) - 1 = ((pre.length + a.length : Nat) : Int) := by
        simp only [List.length_append, List.length_cons, List.length_nil]; push_cast; ring
      have hpre2 : (pre ++ a ++ [',']).length = pre.length + a.length + 1 := by
        simp only [List.length_append, List.length_cons, List.length_nil]
      rw [hpre, hpre2, ← hline] at hih
      simp only [comma_positions, List.cons_append]
      rw [blocks_of]
      simp only [sub_add_cancel]
      rw [hih]
      rw [hline2, substring_middle]

theorem comma_positions_length (args : List CStr) (i : Nat) :
    (comma_positions i args).length = args.length - 1 := by
  induction args generalizing i with
  | nil => simp [comma_positions]
  | cons a rest ih =>
    cases rest with
    | nil => simp [comma_positions]
    | cons b t =>
      simp only [comma_positions, List.length_cons]
      rw [ih]
      simp

/-- The scanning half of `func_sub_blocks` on a call that fits the
`breakpoints` array: the boundaries are -1, the index of the opening
parenthesis, the indices of the separating commas, and the index before the
closing parenthesis. -/
theorem func_sub_blocks_boundaries (f : CStr) (args : List CStr)
    (hf : '(' ∉ f) (hne : args ≠ []) (hn : args.length ≤ 8)
    (hok : ∀ a ∈ args, arg_ok a = true) :
    func_sub_blocks (call_text f args) =
      blocks_of (call_text f args)
        (([-1, (f.length : Int)] ++ comma_positions (f.length + 1) args) ++
          [((call_text f args).length : Int) - 1]) := by
  unfold func_sub_blocks
  simp only
  unfold call_text
  rw [find_open_append f _ hf]
  have hdrop : (f ++ '(' :: (join_args args ++ [')'])).drop (f.length + 1) =
      join_args args ++ [')'] := by
    rw [show f ++ '(' :: (join_args args ++ [')']) = (f ++ ['(']) ++ (join_args args ++ [')']) by simp]
    exact List.drop_left' (by simp)
  rw [hdrop, scan_args_join args (f.length + 1) _ hne hok (by simp; omega)]
  simp only
  have hlen : ([-1, (f.length : Int)] ++ comma_positions (f.length + 1) args).length < 10 := by
    simp only [List.length_append, List.length_cons, List.length_nil, comma_positions_length]
    omega
  rw [if_pos hlen]

/-- The cutting half of `func_sub_blocks`: the blocks between those boundaries
are the function name and the arguments. -/
theorem blocks_of_call (f : CStr) (args : List CStr) (hne : args ≠ []) :
    blocks_of (call_text f args)
      (([-1, (f.length : Int)] ++ comma_positions (f.length + 1) args) ++
        [((call_text f args).length : Int) - 1]) = some (f :: args) := by
  unfold call_text
  have hline : f ++ '(' :: (join_args args ++ [')']) = (f ++ ['(']) ++ join_args args ++ [')'] := by
    simp
  have hb := blocks_of_args args (f ++ ['(']) hne
  rw [← hline] at hb
  have hp : (((f ++ ['(']).length : Nat) : Int) - 1 = (f.length : Int) := by
    simp only [List.length_append, List.length_cons, List.length_nil]; push_cast; ring
  have hp2 : (f ++ ['(']).length = f.length + 1 := by simp
  rw [hp, hp2] at hb
  simp only [List.cons_append, List.nil_append]
  rw [blocks_of]
  have hsub : substring (f ++ '(' :: (join_args args ++ [')'])) (-1 + 1) (f.length : Int) = some f := by
    have := substring_middle [] f ('(' :: (join_args args ++ [')']))
    simpa using this
  rw [hsub, hb]

/-- A call `f(a1,...,an)` with `1 ≤ n ≤ 8`, whose last character is the
parenthesis that closes the first `(` and whose arguments are balanced and have
no comma at depth zero, is split by `func_sub_blocks` into `[f, a1, ..., an]`:
the text before the first `(`, then the arguments, cut only at the commas of
depth zero. -/
theorem func_sub_blocks_call (f : CStr) (args : List CStr)
    (hf : '(' ∉ f) (hne : args ≠ []) (hn : args.length ≤ 8)
    (hok : ∀ a ∈ args, arg_ok a = true) :
    func_sub_blocks (call_text f args) = some (f :: args) := by
  rw [func_sub_blocks_boundaries f args hf hne hn hok]
  exact blocks_of_call f args hne

theorem func_sub_blocks_call_witness :
    '(' ∉ "ADD".toList ∧ ["MUL(2,3)".toList, "4".toList] ≠ [] ∧
    ["MUL(2,3)".toList, "4".toList].length ≤ 8 ∧
    (∀ a ∈ ["MUL(2,3)".toList, "4".toList], arg_ok a = true) ∧
    func_sub_blocks (call_text "ADD".toList ["MUL(2,3)".toList, "4".toList]) =
      some ("ADD".toList :: ["MUL(2,3)".toList, "4".toList]) :=
  ⟨by decide, by decide, by decide, by decide,
    func_sub_blocks_call "ADD".toList ["MUL(2,3)".toList, "4".toList]
      (by decide) (by decide) (by decide) (by decide)⟩

/-- C10 (evaluation at the call `ADD(1,2,...,16)`): the call has the form the
claim describes, with sixteen arguments. `func_sub_blocks` keeps the boundaries
in `int breakpoints[10]`; this call needs eighteen of them, so the stores from
`breakpoints[10]` on are outside the array and the call has no defined result:
the blocks `[ADD, 1, ..., 16]` are not returned. The same call cut to two
arguments is split into its blocks. -/
theorem func_sub_blocks_sixteen_args :
    call_text "ADD".toList ["1".toList, "2".toList, "3".toList, "4".toList, "5".toList,
      "6".toList, "7".toList, "8".toList, "9".toList, "10".toList, "11".toList, "12".toList,
      "13".toList, "14".toList, "15".toList, "16".toList] =
      "ADD(1,2,3,4,5,6,7,8,9,10,11,12,13,14,15,16)".toList ∧
    (∀ a ∈ ["1".toList, "2".toList, "3".toList, "4".toList, "5".toList,
      "6".toList, "7".toList, "8".toList, "9".toList, "10".toList, "11".toList, "12".toList,
      "13".toList, "14".toList, "15".toList, "16".toList], arg_ok a = true) ∧
    func_sub_blocks "ADD(1,2,3,4,5,6,7,8,9,10,11,12,13,14,15,16)".toList = none ∧
    func_sub_blocks "ADD(1,2)".toList = some ["ADD".toList, "1".toList, "2".toList] := by
  refine ⟨by decide, by decide, by decide, by decide⟩

/-! ## Building and resolving `ADD`/`MUL` trees -/

theorem balanced_from_append (a r : CStr) (k d : Nat) (h : balanced_from a k = true) :
    balanced_from (a ++ r) (k + d) = balanced_from r d := by
  induction a generalizing k with
  | nil =>
    simp only [balanced_from, decide_eq_true_eq] at h
    subst h
    simp
  | cons c cs ih =>
    simp only [List.cons_append]
    unfold balanced_from at h
    conv_lhs => unfold balanced_from
    by_cases h1 : c = '(' ∨ c = '['
    · simp only [h1, if_true] at h ⊢
      rw [show k + d + 1 = (k + 1) + d by omega]
      exact ih _ h
    · simp only [h1, if_false] at h ⊢
      by_cases h2 : c = ')' ∨ c = ']'
      · simp only [h2, if_true] at h ⊢
        cases k with
        | zero => simp at h
        | succ j =>
          simp only at h
          rw [show j + 1 + d = (j + d) + 1 by omega]
          exact ih _ h
      · simp only [h2, if_false] at h ⊢
        exact ih _ h

theorem no_top_comma_from_append (a r : CStr) (k d : Nat) (h : balanced_from a k = true)
    (hc : d = 0 → no_top_comma_from a k = true) :
    no_top_comma_from (a ++ r) (k + d) = no_top_comma_from r d := by
  induction a generalizing k with
  | nil =>
    simp only [balanced_from, decide_eq_true_eq] at h
    subst h
    simp
  | cons c cs ih =>
    simp only [List.cons_append]
    unfold balanced_from at h
    unfold no_top_comma_from at hc
    conv_lhs => unfold no_top_comma_from
    by_cases h1 : c = '(' ∨ c = '['
    · simp only [h1, if_true] at h hc ⊢
      rw [show k + d + 1 = (k + 1) + d by omega]
      exact ih _ h hc
    · simp only [h1, if_false] at h hc ⊢
      by_cases h2 : c = ')' ∨ c = ']'
      · simp only [h2, if_true] at h hc ⊢
        cases k with
        | zero => simp at h
        | succ j =>
          simp only [Nat.add_sub_cancel] at h hc
          rw [show j + 1 + d - 1 = j + d by omega]
          exact ih _ h hc
      · simp only [h2, if_false] at h hc ⊢
        by_cases h3 : c = ',' ∧ k + d = 0
        · have hk : k = 0 := by omega
          have hd : d = 0 := by omega
          have := hc hd
          simp [h3.1, hk] at this
        · simp only [h3, if_false]
          refine ih _ h (fun hd => ?_)
          have := hc hd
          by_cases h4 : c = ',' ∧ k = 0
          · simp [h4] at this
          · simpa [h4] using this

theorem scalar_literal_plain (s : CStr) (d : Nat)
    (h : s.all (fun x => !(decide (x = '(') || decide (x = ')') || decide (x = '[') ||
        decide (x = ']') || decide (x = ','))) = true) :
    balanced_from s d = decide (d = 0) ∧ no_top_comma_from s d = true := by
  induction s with
  | nil => simp [balanced_from, no_top_comma_from]
  | cons c cs ih =>
    simp only [List.all_cons, Bool.and_eq_true, Bool.not_eq_true', Bool.or_eq_false_iff,
      decide_eq_false_iff_not] at h
    obtain ⟨⟨⟨⟨⟨h1, h2⟩, h3⟩, h4⟩, h5⟩, hcs⟩ := h
    have := ih hcs
    unfold balanced_from no_top_comma_from
    simp [h1, h2, h3, h4, h5, this]

theorem scalar_literal_ok (s : CStr) (h : scalar_literal s = true) :
    arg_ok s = true ∧ val_type s = 1 := by
  unfold scalar_literal at h
  cases s with
  | nil => simp at h
  | cons c cs =>
    simp only [Bool.and_eq_true] at h
    have hp := scalar_literal_plain (c :: cs) 0 h.2
    refine ⟨by simp [arg_ok, hp], ?_⟩
    have hc : c = '-' ∨ ('0' ≤ c ∧ c ≤ '9') := by
      have := h.1
      simp only [is_digit, Bool.or_eq_true, Bool.and_eq_true, decide_eq_true_eq] at this
      exact this
    unfold val_type
    simp only
    rcases hc with hc | hc
    · simp [hc]
    · simp [hc]

theorem call_text_two (name ta tb : CStr) :
    call_text name [ta, tb] = name ++ ('(' :: (ta ++ (',' :: (tb ++ [')'])))) := by
  simp [call_text, join_args]

theorem call_text_ok (name ta tb : CStr) (hname : balanced_from name 0 = true)
    (hname2 : no_top_comma_from name 0 = true)
    (ha : arg_ok ta = true) (hb : arg_ok tb = true) :
    arg_ok (call_text name [ta, tb]) = true := by
  simp only [arg_ok, Bool.and_eq_true] at ha hb ⊢
  rw [call_text_two]
  constructor
  · have h1 := balanced_from_append name ('(' :: (ta ++ (',' :: (tb ++ [')'])))) 0 0 hname
    simp only [Nat.add_zero] at h1
    rw [h1, balanced_from]
    simp only [true_or, if_true]
    have h2 := balanced_from_append ta (',' :: (tb ++ [')'])) 0 1 ha.1
    simp only [Nat.zero_add] at h2
    rw [h2]
    have h3 := balanced_from_append tb [')'] 0 1 hb.1
    simp only [Nat.zero_add] at h3
    simp [balanced_from, h3]
  · have h1 := no_top_comma_from_append name ('(' :: (ta ++ (',' :: (tb ++ [')'])))) 0 0 hname
      (fun _ => hname2)
    simp only [Nat.add_zero] at h1
    rw [h1, no_top_comma_from]
    simp only [true_or, if_true]
    have h2 := no_top_comma_from_append ta (',' :: (tb ++ [')'])) 0 1 ha.1 (by simp)
    simp only [Nat.zero_add] at h2
    rw [h2]
    have h3 := no_top_comma_from_append tb [')'] 0 1 hb.1 (by simp)
    simp only [Nat.zero_add] at h3
    simp [no_top_comma_from, h3]

theorem expr_text_ok (e : Expr) (h : e.well_formed = true) : arg_ok e.text = true := by
  induction e with
  | lit s => exact (scalar_literal_ok s h).1
  | add a b iha ihb =>
    simp only [Expr.well_formed, Bool.and_eq_true] at h
    exact call_text_ok _ _ _ (by decide) (by decide) (iha h.1) (ihb h.2)
  | mul a b iha ihb =>
    simp only [Expr.well_formed, Bool.and_eq_true] at h
    exact call_text_ok _ _ _ (by decide) (by decide) (iha h.1) (ihb h.2)

theorem expr_depth_le (e : Expr) : e.depth ≤ e.text.length := by
  induction e with
  | lit s => simp [Expr.depth]
  | add a b iha ihb =>
    simp only [Expr.depth, Expr.text, call_text_two, List.length_append, List.length_cons]
    omega
  | mul a b iha ihb =>
    simp only [Expr.depth, Expr.text, call_text_two, List.length_append, List.length_cons]
    omega

theorem interpret_declaration_scalar (s : CStr) (h : scalar_literal s = true) :
    interpret_declaration s = some { Value.zero with type := false, num := atof s } := by
  unfold scalar_literal at h
  cases s with
  | nil => simp at h
  | cons c cs =>
    simp only [Bool.and_eq_true, List.all_cons, Bool.not_eq_true', Bool.or_eq_false_iff,
      decide_eq_false_iff_not] at h
    have hc : c ≠ '[' := h.2.1.1.1.2
    unfold interpret_declaration
    split
    · rename_i heq
      simp only [List.cons.injEq] at heq
      exact absurd heq.1 hc
    · rfl

theorem val_type_call (name : CStr) (c : Char) (rest ta tb : CStr) (hname : name = c :: rest)
    (hc : val_type [c] = 2) :
    val_type (call_text name [ta, tb]) = 0 := by
  subst hname
  have hp : ∀ (r s : CStr), has_paren (r ++ '(' :: s) = true := by
    intro r s
    induction r with
    | nil => simp [has_paren]
    | cons x xs ih => simp only [List.cons_append, has_paren]; split <;> simp [ih]
  unfold val_type at hc ⊢
  simp only [call_text_two, List.cons_append] at hc ⊢
  split at hc
  · simp at hc
  · rename_i hlit
    simp [hlit, hp]

theorem build_tree (table : Depot) (e : Expr) (h : e.well_formed = true) (n : Nat)
    (hn : e.depth < n) : interpret_func_depth table n e.text = some e.tree := by
  induction e generalizing n with
  | lit s =>
    cases n with
    | zero => omega
    | succ m =>
      simp only [Expr.well_formed] at h
      simp [interpret_func_depth, Expr.text, (scalar_literal_ok s h).2,
        interpret_declaration_scalar s h, Expr.tree, Value.zero]
  | add a b iha ihb =>
    cases n with
    | zero => omega
    | succ m =>
      simp only [Expr.well_formed, Bool.and_eq_true] at h
      simp only [Expr.depth] at hn
      have ha := iha h.1 m (by omega)
      have hb := ihb h.2 m (by omega)
      have hv : val_type (call_text "ADD".toList [a.text, b.text]) = 0 :=
        val_type_call _ 'A' "DD".toList _ _ (by decide) (by decide)
      have hs : func_sub_blocks (call_text "ADD".toList [a.text, b.text]) =
          some ["ADD".toList, a.text, b.text] := by
        rw [func_sub_blocks_boundaries "ADD".toList [a.text, b.text] (by decide) (by simp)
          (by simp) ?_]
        · exact blocks_of_call _ _ (by simp)
        ·
          intro x hx
          simp only [List.mem_cons, List.mem_singleton, List.not_mem_nil, or_false] at hx
          rcases hx with hx | hx
          · rw [hx]; exact expr_text_ok a h.1
          · rw [hx]; exact expr_text_ok b h.2
      have hg : get_func ['A', 'D', 'D'] = some (.node [.nullF, .nullF] (some .add_wrapper) none 2 NUMBER) := by
        rfl
      simp only [interpret_func_depth, Expr.text, hv, hs]
      simp [hg, fill_operands, ha, hb, Expr.tree, NUMBER]
  | mul a b iha ihb =>
    cases n with
    | zero => omega
    | succ m =>
      simp only [Expr.well_formed, Bool.and_eq_true] at h
      simp only [Expr.depth] at hn
      have ha := iha h.1 m (by omega)
      have hb := ihb h.2 m (by omega)
      have hv : val_type (call_text "MUL".toList [a.text, b.text]) = 0 :=
        val_type_call _ 'M' "UL".toList _ _ (by decide) (by decide)
      have hs : func_sub_blocks (call_text "MUL".toList [a.text, b.text]) =
          some ["MUL".toList, a.text, b.text] := by
        rw [func_sub_blocks_boundaries "MUL".toList [a.text, b.text] (by decide) (by simp)
          (by simp) ?_]
        · exact blocks_of_call _ _ (by simp)
        ·
          intro x hx
          simp only [List.mem_cons, List.mem_singleton, List.not_mem_nil, or_false] at hx
          rcases hx with hx | hx
          · rw [hx]; exact expr_text_ok a h.1
          · rw [hx]; exact expr_text_ok b h.2
      have hg : get_func ['M', 'U', 'L'] = some (.node [.nullF, .nullF] (some .mul_wrapper) none 2 NUMBER) := by
        rfl
      simp only [interpret_func_depth, Expr.text, hv, hs]
      simp [hg, fill_operands, ha, hb, Expr.tree, NUMBER]

theorem resolved_shape (e : Expr) :
    ∃ l f, e.resolved =
      .node l f (some { mat := none, num := e.value, type := NUMBER }) (-1) NUMBER := by
  cases e with
  | lit s => exact ⟨[], none, rfl⟩
  | add a b => exact ⟨[], some .add_wrapper, rfl⟩
  | mul a b => exact ⟨[], some .mul_wrapper, rfl⟩

theorem add_wrapper_resolved (a b : Expr) :
    add_wrapper [a.resolved, b.resolved] =
      some (some { mat := none, num := a.value + b.value, type := NUMBER }) := by
  obtain ⟨la, fa, ha⟩ := resolved_shape a
  obtain ⟨lb, fb, hb⟩ := resolved_shape b
  rw [ha, hb]
  simp [add_wrapper, check_operands, Function.type?, operand_val, NUMBER, Value.zero]

theorem mul_wrapper_resolved (a b : Expr) :
    mul_wrapper [a.resolved, b.resolved] =
      some (some { mat := none, num := a.value * b.value, type := NUMBER }) := by
  obtain ⟨la, fa, ha⟩ := resolved_shape a
  obtain ⟨lb, fb, hb⟩ := resolved_shape b
  rw [ha, hb]
  simp [mul_wrapper, check_operands, Function.type?, operand_val, NUMBER, Value.zero]

theorem resolve_operands_two (x y x2 y2 : Function)
    (hx : resolve_operands 1 [x] = some [x2]) (hy : resolve_operands 1 [y] = some [y2]) :
    resolve_operands 2 [x, y] = some [x2, y2] := by
  cases x with
  | nullF => simp [resolve_operands] at hx
  | node l f rv n ty =>
    cases y with
    | nullF => simp [resolve_operands] at hy
    | node l2 f2 rv2 n2 ty2 =>
      simp only [resolve_operands] at hx hy ⊢
      split at hx
      · cases hx
      · rename_i op hop
        simp only [Option.some.injEq, List.cons.injEq, and_true] at hx
        subst hx
        split at hy
        · cases hy
        · rename_i op2 hop2
          simp only [Option.some.injEq, List.cons.injEq, and_true] at hy
          subst hy
          simp [hop, hop2]

theorem resolve_tree (e : Expr) :
    resolve_func e.tree = some e.resolved ∧ resolve_operands 1 [e.tree] = some [e.resolved] := by
  induction e with
  | lit s =>
    constructor
    · simp [Expr.tree, Expr.resolved, resolve_func]
    · simp [Expr.tree, Expr.resolved, resolve_operands]
  | add a b iha ihb =>
    have h2 := resolve_operands_two _ _ _ _ iha.2 ihb.2
    have hr : resolve_func (Expr.add a b).tree = some (Expr.add a b).resolved := by
      simp only [Expr.tree, Expr.resolved, resolve_func]
      have : (2 : Int).toNat = 2 := rfl
      rw [this, h2]
      simp [call_f_ptr, add_wrapper_resolved]
    refine ⟨hr, ?_⟩
    simp only [Expr.tree] at hr ⊢
    simp [resolve_operands, hr]
  | mul a b iha ihb =>
    have h2 := resolve_operands_two _ _ _ _ iha.2 ihb.2
    have hr : resolve_func (Expr.mul a b).tree = some (Expr.mul a b).resolved := by
      simp only [Expr.tree, Expr.resolved, resolve_func]
      have : (2 : Int).toNat = 2 := rfl
      rw [this, h2]
      simp [call_f_ptr, mul_wrapper_resolved]
    refine ⟨hr, ?_⟩
    simp only [Expr.tree] at hr ⊢
    simp [resolve_operands, hr]

/-- C1: for every expression built from scalar literals and nested two-argument
`ADD`/`MUL` calls, `interpret_func` builds a tree from its text and
`resolve_func` resolves that tree to the Scalar whose number is the arithmetic
value of the expression (`ADD(a,b) = a+b`, `MUL(a,b) = a*b` at every call);
in particular `ADD(MUL(2,3),4)` resolves to 10. -/
theorem resolve_add_mul (table : Depot) (e : Expr) (h : e.well_formed = true) :
    (∃ f g, interpret_func table e.text = some f ∧ resolve_func f = some g ∧
      g.returnVal? = some (some { mat := none, num := e.value, type := NUMBER })) ∧
    (∃ f g, interpret_func table "ADD(MUL(2,3),4)".toList = some f ∧ resolve_func f = some g ∧
      g.returnVal? = some (some { mat := none, num := 10, type := NUMBER })) := by
  have main : ∀ e : Expr, e.well_formed = true →
      ∃ f g, interpret_func table e.text = some f ∧ resolve_func f = some g ∧
        g.returnVal? = some (some { mat := none, num := e.value, type := NUMBER }) := by
    intro e h
    refine ⟨e.tree, e.resolved, ?_, (resolve_tree e).1, ?_⟩
    · exact build_tree table e h _ (Nat.lt_succ_of_le (expr_depth_le e))
    · obtain ⟨l, f, hs⟩ := resolved_shape e
      rw [hs]
      rfl
  refine ⟨main e h, ?_⟩
  have h10 := main add_mul_example (by decide)
  have hv : add_mul_example.value = 10 := by with_unfolding_all rfl
  rw [hv] at h10
  exact h10

theorem resolve_add_mul_witness :
    add_mul_example.well_formed = true ∧
    add_mul_example.text = "ADD(MUL(2,3),4)".toList ∧
    add_mul_example.value = 10 ∧
    ((∃ f g, interpret_func setup_depot add_mul_example.text = some f ∧
      resolve_func f = some g ∧
      g.returnVal? = some (some { mat := none, num := add_mul_example.value, type := NUMBER })) ∧
    (∃ f g, interpret_func setup_depot "ADD(MUL(2,3),4)".toList = some f ∧ resolve_func f = some g ∧
      g.returnVal? = some (some { mat := none, num := 10, type := NUMBER }))) :=
  ⟨by decide, by decide, by with_unfolding_all rfl,
    resolve_add_mul setup_depot add_mul_example (by decide)⟩

/-! ## Three-token lines -/

theorem tokenize_line_cells (line : CStr) :
    (tokenize_line line).cells = (strtok_all line).map some ++
      none :: List.replicate (count_split_chars line + 1 - (strtok_all line).length) none := by
  rw [tokenize_line_eq]
  simp only [List.append_assoc]
  congr 1
  rw [← List.replicate_succ, List.replicate_succ']

/-- A line of three tokens `t0 = t2` whose first token is neither `MAT` nor
`NUM` is interpreted from the expression `t2`, as an Output statement when `t0`
is `OUT` and as an Assign to `t0` otherwise. -/
theorem three_token_line (st : State) (line t0 t2 : CStr)
    (hl : strtok_all line = [t0, "=".toList, t2])
    (hm : t0 ≠ "MAT".toList) (hn : t0 ≠ "NUM".toList) :
    interpret_line st line =
      match interpret_func st.table t2 with
      | some (.node opList f_ptr returnVal opNum type) =>
        (match finish_line
            { v := none, name := if t0 = "OUT".toList then none else some t0, new := false,
              out := decide (t0 = "OUT".toList), type := type }
            (.node opList f_ptr returnVal opNum type) with
         | none => none
         | some L => some (some L, st))
      | _ => none := by
  have hc := tokenize_line_cells line
  rw [hl] at hc
  have hv : validate_tokens (tokenize_line line).cells = true := by
    rw [hc]
    unfold validate_tokens
    simp only [count_tokens_terminated]
    rfl
  have h0 : tok (tokenize_line line).cells 0 = some t0 := by rw [hc]; rfl
  have h2 : tok (tokenize_line line).cells 2 = some t2 := by rw [hc]; rfl
  unfold interpret_line
  simp only [hv, h0, h2, if_true, Option.some.injEq, hm, hn, if_false]
  by_cases ho : t0 = "OUT".toList
  · simp only [ho, if_true, Bool.false_eq_true, if_false, decide_True]
  · simp only [ho, if_false, Bool.false_eq_true, decide_False]

/-! ## Assignments to unbound names -/

theorem reassign_chain_unbound (name : CStr) (newVal : Option Value) (chain : List Variable)
    (h : ∀ x ∈ chain, x.name ≠ name) : reassign_chain name newVal chain = chain := by
  induction chain with
  | nil => rfl
  | cons x xs ih =>
    have hx : x.name ≠ name := h x (by simp)
    simp only [reassign_chain, hx, if_false]
    rw [ih (fun y hy => h y (by simp [hy]))]

/-- An Assign statement for a name that no variable of its bucket carries
reports success and leaves the whole state as it was. -/
theorem assign_unbound_reports_success (st : State) (name : CStr) (v : Option Value)
    (ty : Bool) (h : ∀ x ∈ st.table.getD (location name) [], x.name ≠ name) :
    execute_line st (some { v := v, name := some name, new := false, out := false, type := ty }) =
      some (true, st) := by
  have hr : reassign st.table name v = st.table := by
    unfold reassign
    rw [reassign_chain_unbound name v _ h]
    apply List.ext_getElem?
    intro i
    by_cases hi : location name = i
    · subst hi
      by_cases hl : location name < st.table.length
      · simp [List.getElem?_set, hl, List.getD_eq_getElem?_getD, List.getElem?_eq_getElem hl]
      · simp [List.getElem?_set, hl]
        omega
    · simp [List.getElem?_set, hi]
  simp [execute_line, hr]

/-! ## Capacity of the boundary array -/

theorem scan_args_join_overflow (args : List CStr) (i : Nat) (bps : List Int)
    (hne : args ≠ [])
    (hok : ∀ a ∈ args, arg_ok a = true)
    (hcap : bps.length ≤ 10)
    (hlen : 12 ≤ bps.length + args.length) :
    scan_args (join_args args ++ [')']) i 0 bps = none := by
  induction args generalizing i bps with
  | nil => exact absurd rfl hne
  | cons a rest ih =>
    have ha := hok a (by simp)
    simp only [arg_ok, Bool.and_eq_true] at ha
    cases rest with
    | nil =>
      simp only [List.length_cons, List.length_nil] at hlen
      omega
    | cons b t =>
      simp only [join_args, List.append_assoc, List.cons_append]
      have := scan_args_arg a (',' :: (join_args (b :: t) ++ [')'])) 0 i bps ha.1 ha.2
      simp only [Nat.cast_zero] at this
      rw [this, scan_args]
      simp only [List.length_cons] at hlen
      by_cases hlt : bps.length < 10
      · simp only [hlt, if_true]
        have hih := ih (i + a.length + 1) (bps ++ [((i + a.length : Nat) : Int)]) (by simp)
          (fun x hx => hok x (by simp at hx ⊢; right; exact hx))
          (by simp only [List.length_append, List.length_cons, List.length_nil]; omega)
          (by simp only [List.length_append, List.length_cons, List.length_nil]; omega)
        simp at hih ⊢
        exact hih
      · simp [hlt]

/-- From nine arguments on, a well-formed call makes `func_sub_blocks` store a
boundary at index 10 or more of `breakpoints`: the call has no defined result. -/
theorem func_sub_blocks_overflow (f : CStr) (args : List CStr)
    (hf : '(' ∉ f) (hn : 9 ≤ args.length)
    (hok : ∀ a ∈ args, arg_ok a = true) :
    func_sub_blocks (call_text f args) = none := by
  have hne : args ≠ [] := by
    intro h; rw [h] at hn; simp at hn
  unfold func_sub_blocks
  simp only
  unfold call_text
  rw [find_open_append f _ hf]
  have hdrop : (f ++ '(' :: (join_args args ++ [')'])).drop (f.length + 1) =
      join_args args ++ [')'] := by
    rw [show f ++ '(' :: (join_args args ++ [')']) = (f ++ ['(']) ++ (join_args args ++ [')']) by simp]
    exact List.drop_left' (by simp)
  rw [hdrop]
  by_cases h9 : args.length = 9
  · rw [scan_args_join args (f.length + 1) _ hne hok (by simp; omega)]
    simp only
    have hlen : ¬ ([-1, (f.length : Int)] ++ comma_positions (f.length + 1) args).length < 10 := by
      simp only [List.length_append, List.length_cons, List.length_nil, comma_positions_length]
      omega
    rw [if_neg hlen]
  · rw [scan_args_join_overflow args (f.length + 1) _ hne hok (by simp) (by simp; omega)]

/-- C11 (evaluation at the call `SUM(a,b,c,d,e,f,g,h,i)`, nine well-formed
arguments): the tenth boundary would be stored in `breakpoints[10]`, outside the
ten cells of the array, so the call has no defined result, while the same call
with eight arguments is split in full. -/
theorem func_sub_blocks_capacity :
    (∀ a ∈ ["a".toList, "b".toList, "c".toList, "d".toList, "e".toList, "f".toList,
      "g".toList, "h".toList, "i".toList], arg_ok a = true) ∧
    scan_args "a,b,c,d,e,f,g,h,i)".toList 4 0 [-1, 3] =
      some [-1, 3, 5, 7, 9, 11, 13, 15, 17, 19] ∧
    func_sub_blocks "SUM(a,b,c,d,e,f,g,h,i)".toList = none ∧
    func_sub_blocks "SUM(a,b,c,d,e,f,g,h)".toList =
      some ["SUM".toList, "a".toList, "b".toList, "c".toList, "d".toList, "e".toList,
        "f".toList, "g".toList, "h".toList] := by
  refine ⟨by decide, by decide, by decide, by decide⟩

/-! ## Classification of expressions -/

theorem has_paren_iff (s : CStr) : has_paren s = true ↔ '(' ∈ s := by
  induction s with
  | nil => simp [has_paren]
  | cons c cs ih =>
    unfold has_paren
    by_cases h : c = '('
    · simp [h]
    · have h2 : ¬ '(' = c := fun e => h e.symm
      simp [h, h2, ih]

/-- What `val_type` computes: 1 when the text starts with `[`, `-` or a decimal
digit; otherwise 0 exactly when a `(` occurs after the first character; otherwise
2. The first character itself is never compared with `(`. -/
theorem val_type_eq (c : Char) (rest : CStr) :
    val_type (c :: rest) =
      if c = '[' ∨ c = '-' ∨ ('0' ≤ c ∧ c ≤ '9') then 1
      else if '(' ∈ rest then 0 else 2 := by
  unfold val_type
  simp only
  by_cases h : c = '[' ∨ c = '-' ∨ ('0' ≤ c ∧ c ≤ '9')
  · simp only [h, if_true]
  · simp only [h, if_false]
    by_cases hp : '(' ∈ rest
    · simp [hp, (has_paren_iff rest).2 hp]
    · have : has_paren rest = false := by
        cases hh : has_paren rest
        · rfl
        · exact absurd ((has_paren_iff rest).1 hh) hp
      simp [hp, this]

/-- C12 (evaluation at the texts `(x)` and `(`): they contain a `(`, at index 0,
and do not start as a literal, yet `val_type` returns 2 (variable) and not 0
(call): its loop advances the index before it looks at a character. With the
`(` at index 1 the text is classified as a call. -/
theorem val_type_paren_at_start :
    '(' ∈ "(x)".toList ∧ val_type "(x)".toList = 2 ∧
    val_type "(".toList = 2 ∧
    val_type "f(x)".toList = 0 := by
  refine ⟨by decide, by decide, by decide, by decide⟩

/-! ## The registry -/

/-- C13: for each of the seven builtin names `get_func` returns an unresolved
node (`returnVal` is `NULL`) with the arity and the result kind of the registry
table (ADD 2 Scalar, MUL 2 Scalar, MAT_ADD 2 Matrix, SCAL_MUL 2 Matrix,
MAT_MUL 2 Matrix, TRAN 1 Matrix, SOLVE 1 Matrix), its operand array holding
exactly arity cells. -/
theorem get_func_table :
    get_func "ADD".toList =
      some (.node [.nullF, .nullF] (some .add_wrapper) none 2 NUMBER) ∧
    get_func "MUL".toList =
      some (.node [.nullF, .nullF] (some .mul_wrapper) none 2 NUMBER) ∧
    get_func "MAT_ADD".toList =
      some (.node [.nullF, .nullF] (some .mat_add_wrapper) none 2 MATRIX) ∧
    get_func "SCAL_MUL".toList =
      some (.node [.nullF, .nullF] (some .scal_mul_wrapper) none 2 MATRIX) ∧
    get_func "MAT_MUL".toList =
      some (.node [.nullF, .nullF] (some .mat_mul_wrapper) none 2 MATRIX) ∧
    get_func "TRAN".toList =
      some (.node [.nullF] (some .transpose_wrapper) none 1 MATRIX) ∧
    get_func "SOLVE".toList =
      some (.node [.nullF] (some .solve_wrapper) none 1 MATRIX) :=
  ⟨rfl, rfl, rfl, rfl, rfl, rfl, rfl⟩

/-! ## Resolving twice -/

/-- A node that `resolve_func` left with a value is unchanged by a second
`resolve_func`. -/
theorem resolve_func_twice (func g : Function) (v : Value)
    (_h : resolve_func func = some g) (hv : g.returnVal? = some (some v)) :
    resolve_func g = some g := by
  cases g with
  | nullF => simp [Function.returnVal?] at hv
  | node l f rv n ty =>
    simp only [Function.returnVal?, Option.some.injEq] at hv
    subst hv
    simp [resolve_func]

/-- C15: on a node whose cached value is set, `resolve_func` changes no field
of the node. It does so whatever `f_ptr` is, also when `f_ptr` is `NULL` and a
call through it would be undefined: the implementation is not invoked. -/
theorem resolve_func_idempotent (opList : List Function) (f_ptr : Option FPtr) (v : Value)
    (opNum : Int) (type : Bool) :
    resolve_func (.node opList f_ptr (some v) opNum type) =
      some (.node opList f_ptr (some v) opNum type) ∧
    resolve_func (.node opList none (some v) opNum type) =
      some (.node opList none (some v) opNum type) := by
  constructor
  · simp only [resolve_func]
  · simp only [resolve_func]

/-! ## Argument counts -/

/-- C14 (evaluation at the calls `ADD(1,2,3)` and `ADD(1)`): the call with three
arguments is split into four blocks, `interpret_func` builds the `ADD` node from
the first two arguments and ignores the third, the node resolves to 3, and the
line `OUT = ADD(1,2,3)` is interpreted as an Output of 3 with the error log as it
was (no `WRONG_PARAMS` entry). The call with one argument is split into two
blocks and the second operand is read from `blocks[2]`, past the block. -/
theorem arity_not_checked :
    func_sub_blocks "ADD(1,2,3)".toList =
      some ["ADD".toList, "1".toList, "2".toList, "3".toList] ∧
    interpret_func setup_depot "ADD(1,2,3)".toList =
      some (.node [.node [] none (some { mat := none, num := 1, type := NUMBER }) (-1) NUMBER,
                   .node [] none (some { mat := none, num := 2, type := NUMBER }) (-1) NUMBER]
              (some .add_wrapper) none 2 NUMBER) ∧
    (interpret_func setup_depot "ADD(1,2,3)".toList).bind resolve_func =
      some (.node [] (some .add_wrapper) (some { mat := none, num := 3, type := NUMBER })
              (-1) NUMBER) ∧
    interpret_line start_program "OUT = ADD(1,2,3)".toList =
      some (some { v := some { mat := none, num := 3, type := NUMBER }, name := none,
                   new := false, out := true, type := NUMBER }, start_program) ∧
    func_sub_blocks "ADD(1)".toList = some ["ADD".toList, "1".toList] ∧
    ["ADD".toList, "1".toList].get? 2 = none ∧
    interpret_func setup_depot "ADD(1)".toList = none := by
  refine ⟨by decide, ?_, ?_, ?_, by decide, by decide, ?_⟩
  · with_unfolding_all rfl
  · with_unfolding_all rfl
  · with_unfolding_all rfl
  · with_unfolding_all rfl

/-! ## Matrix literals -/

/-- For every text that starts with `[`, `interpret_declaration` hands
`interpret_mat` all that follows the opening bracket: a closing bracket at the
end of the text is not taken off. -/
theorem interpret_declaration_matrix (body : CStr) :
    interpret_declaration ('[' :: body) =
      some { mat := some (interpret_mat body), num := 0, type := true } := by
  unfold interpret_declaration
  simp only
  have hs : substring ('[' :: body) 1 ((((('[' :: body).length + 1 : Nat)) : Int) - 1) =
      some body := by
    have := substring_middle ['['] body []
    simp only [List.length_cons, List.length_nil, List.append_nil, List.singleton_append] at this
    rw [← this]
    congr 1
    simp only [List.length_cons]
    push_cast
    ring
  rw [hs]
  rfl

/-- C16 (evaluation at the literal `[1,2;3,4]`): the text handed to
`interpret_mat` is `1,2;3,4]`, with the closing bracket; the dimensions found
are 2 and 2, so the array has 4 cells, and the loop makes 5 stores into it, the
last one (the 0 converted from the empty text after `]`) at index 4, past the
block. The matrix built from the first 4 cells is the 2x2 matrix with rows (1,2)
and (3,4). -/
theorem matrix_literal_keeps_bracket :
    substring "[1,2;3,4]".toList 1 ((("[1,2;3,4]".toList.length + 1 : Nat) : Int) - 1) =
      some "1,2;3,4]".toList ∧
    dimension_string_mat "1,2;3,4]".toList = (2, 2) ∧
    interpret_mat_arr "1,2;3,4]".toList = ([1, 2, 3, 4, 0], 5) ∧
    interpret_mat_arr "1,2;3,4".toList = ([1, 2, 3, 4], 4) ∧
    interpret_declaration "[1,2;3,4]".toList =
      some { mat := some { matrix := [[1, 2], [3, 4]], row := 2, col := 2, valid := true },
             num := 0, type := MATRIX } := by
  refine ⟨by decide, ?_, ?_, ?_, ?_⟩
  · with_unfolding_all rfl
  · with_unfolding_all rfl
  · with_unfolding_all rfl
  · with_unfolding_all rfl

/-! ## The numeric kernels -/

theorem getD_map_range {α : Type} (n i : Nat) (f : Nat → α) (d : α) (h : i < n) :
    ((List.range n).map f).getD i d = f i := by
  rw [List.getD_eq_getElem?_getD, List.getElem?_map, List.getElem?_range h]
  rfl

theorem get?_map_range {α : Type} (n i : Nat) (f : Nat → α) (h : i < n) :
    ((List.range n).map f).get? i = some (f i) := by
  rw [List.get?_eq_getElem?, List.getElem?_map, List.getElem?_range h]
  rfl

/-- In a well-formed matrix the cells `[i][j]` with `i < row` and `j < col`
exist, and `Mat.at` reads them. -/
theorem cell_of_well_formed (m : Mat) (i j : Nat) (hm : m.well_formed = true)
    (hi : i < m.row) (hj : j < m.col) : m.cell? i j = some (m.at i j) := by
  simp only [Mat.well_formed, Bool.and_eq_true, decide_eq_true_eq, List.all_eq_true] at hm
  obtain ⟨hlen, hrows⟩ := hm
  have hi2 : i < m.matrix.length := by omega
  have hr := hrows (m.matrix[i]) (List.getElem_mem _)
  have hj2 : j < (m.matrix[i]).length := by omega
  simp [Mat.cell?, Mat.at, List.getD_eq_getElem?_getD, List.get?_eq_getElem?,
    List.getElem?_eq_getElem hi2, List.getElem?_eq_getElem hj2]

theorem cell_map_range (n c i j : Nat) (f : Nat → Nat → ℚ) (r k : Nat) (v : Bool)
    (hi : i < n) (hj : j < c) :
    Mat.cell? { matrix := (List.range n).map (fun a => (List.range c).map (fun b => f a b)),
                row := r, col := k, valid := v } i j = some (f i j) := by
  simp only [Mat.cell?]
  rw [get?_map_range n i _ hi]
  simp only
  rw [get?_map_range c j _ hj]

theorem well_formed_map_range (n c : Nat) (f : Nat → Nat → ℚ) (v : Bool) :
    Mat.well_formed { matrix := (List.range n).map (fun a => (List.range c).map (fun b => f a b)),
                      row := n, col := c, valid := v } = true := by
  simp [Mat.well_formed]

theorem add_eq (A B : Mat) :
    add A B = { matrix := (List.range A.row).map (fun a => (List.range A.col).map
                  (fun b => A.at a b + B.at a b)),
                row := A.row, col := A.col, valid := true } := rfl

theorem scal_mul_eq (mat : Mat) (scalar : ℚ) :
    scal_mul mat scalar =
      { matrix := (List.range mat.row).map (fun a => (List.range mat.col).map
          (fun b => mat.at a b * scalar)),
        row := mat.row, col := mat.col, valid := true } := rfl

theorem foldl_range_sum (n : Nat) (g g2 : Nat → ℚ) (h : ∀ i, i < n → g i = g2 i) :
    (List.range n).foldl (fun val i => val + g i) 0 = ∑ i in Finset.range n, g2 i := by
  induction n with
  | zero => simp
  | succ k ih =>
    rw [List.range_succ, List.foldl_append, Finset.sum_range_succ,
      ih (fun i hi => h i (by omega))]
    simp [h k (by omega)]

theorem compose_eq (A B : Mat) :
    compose A B = { matrix := (List.range A.row).map (fun m => (List.range B.col).map
                      (fun r => ∑ k in Finset.range B.row, A.at m k * B.at k r)),
                    row := A.row, col := B.col, valid := true } := by
  unfold compose
  congr 1
  apply List.map_congr_left
  intro m _
  apply List.map_congr_left
  intro r _
  unfold vec_compress
  apply foldl_range_sum
  intro i hi
  rw [getD_map_range _ _ _ _ hi]
  rfl

/-- C17: for matrices `A` and `B` of equal shape, `mat_add_wrapper` returns the
matrix `add A B`, which has the shape of `A` and whose cell `[i][j]` is
`A[i][j] + B[i][j]` for every `i < row`, `j < col` (all three reads being inside
the rows). The operands are values of the embedding: `add` only reads them. -/
theorem mat_add_entries (A B : Mat) (l1 l2 : List Function) (f1 f2 : Option FPtr)
    (n1 n2 : Int) (va vb : Value)
    (hva : va.mat = some A) (hvb : vb.mat = some B)
    (hA : A.well_formed = true) (hB : B.well_formed = true)
    (hrow : A.row = B.row) (hcol : A.col = B.col) :
    mat_add_wrapper [.node l1 f1 (some va) n1 MATRIX, .node l2 f2 (some vb) n2 MATRIX] =
      some (some { mat := some (add A B), num := 0, type := MATRIX }) ∧
    (add A B).row = A.row ∧ (add A B).col = A.col ∧ (add A B).well_formed = true ∧
    ∀ i j, i < A.row → j < A.col →
      ∃ a b, A.cell? i j = some a ∧ B.cell? i j = some b ∧
        (add A B).cell? i j = some (a + b) := by
  refine ⟨?_, rfl, rfl, ?_, ?_⟩
  · simp [mat_add_wrapper, check_operands, Function.type?, operand_mat, operand_val, hva, hvb,
      add_dimensions, hrow, hcol, Value.zero]
  · rw [add_eq]; exact well_formed_map_range _ _ _ _
  · intro i j hi hj
    refine ⟨A.at i j, B.at i j, cell_of_well_formed A i j hA hi hj,
      cell_of_well_formed B i j hB (by omega) (by omega), ?_⟩
    rw [add_eq]
    exact cell_map_range _ _ i j _ _ _ _ hi hj

theorem mat_add_entries_witness :
    (matrix_value mat_row_1_2).mat = some mat_row_1_2 ∧
    (matrix_value mat_row_3_4).mat = some mat_row_3_4 ∧
    mat_row_1_2.well_formed = true ∧ mat_row_3_4.well_formed = true ∧
    mat_row_1_2.row = mat_row_3_4.row ∧ mat_row_1_2.col = mat_row_3_4.col ∧
    (mat_add_wrapper [.node [] none (some (matrix_value mat_row_1_2)) (-1) MATRIX,
        .node [] none (some (matrix_value mat_row_3_4)) (-1) MATRIX] =
      some (some { mat := some (add mat_row_1_2 mat_row_3_4), num := 0, type := MATRIX }) ∧
    (add mat_row_1_2 mat_row_3_4).row = mat_row_1_2.row ∧
    (add mat_row_1_2 mat_row_3_4).col = mat_row_1_2.col ∧
    (add mat_row_1_2 mat_row_3_4).well_formed = true ∧
    ∀ i j, i < mat_row_1_2.row → j < mat_row_1_2.col →
      ∃ a b, mat_row_1_2.cell? i j = some a ∧ mat_row_3_4.cell? i j = some b ∧
        (add mat_row_1_2 mat_row_3_4).cell? i j = some (a + b)) :=
  ⟨rfl, rfl, by decide, by decide, rfl, rfl,
    mat_add_entries mat_row_1_2 mat_row_3_4 [] [] none none (-1) (-1)
      (matrix_value mat_row_1_2) (matrix_value mat_row_3_4) rfl rfl (by decide) (by decide)
      rfl rfl⟩

/-- C19: for a scalar `s` and a matrix `M`, `scal_mul_wrapper` on the operands
(Scalar, Matrix) returns the matrix `scal_mul M s`, which has the shape of `M`
and whose cell `[i][j]` is `s * M[i][j]` for every `i < row`, `j < col`; with
`s = 1` its rows are the rows of `M`. -/
theorem scal_mul_entries (M : Mat) (l1 l2 : List Function) (f1 f2 : Option FPtr)
    (n1 n2 : Int) (vs vm : Value)
    (hvm : vm.mat = some M) (hM : M.well_formed = true) :
    scal_mul_wrapper [.node l1 f1 (some vs) n1 NUMBER, .node l2 f2 (some vm) n2 MATRIX] =
      some (some { mat := some (scal_mul M vs.num), num := 0, type := MATRIX }) ∧
    (scal_mul M vs.num).row = M.row ∧ (scal_mul M vs.num).col = M.col ∧
    (scal_mul M vs.num).well_formed = true ∧
    (∀ i j, i < M.row → j < M.col →
      ∃ m, M.cell? i j = some m ∧ (scal_mul M vs.num).cell? i j = some (vs.num * m)) ∧
    (scal_mul M 1).matrix = M.matrix ∧ (scal_mul M 1).row = M.row ∧
    (scal_mul M 1).col = M.col := by
  refine ⟨?_, rfl, rfl, ?_, ?_, ?_, rfl, rfl⟩
  · simp [scal_mul_wrapper, check_operands, Function.type?, operand_mat, operand_val, hvm,
      Value.zero]
  · rw [scal_mul_eq]; exact well_formed_map_range _ _ _ _
  · intro i j hi hj
    refine ⟨M.at i j, cell_of_well_formed M i j hM hi hj, ?_⟩
    rw [scal_mul_eq, mul_comm]
    exact cell_map_range _ _ i j _ _ _ _ hi hj
  · rw [scal_mul_eq]
    simp only [mul_one]
    simp only [Mat.well_formed, Bool.and_eq_true, decide_eq_true_eq, List.all_eq_true] at hM
    obtain ⟨hlen, hrows⟩ := hM
    apply List.ext_getElem
    · simp [hlen]
    · intro i h1 h2
      have hr := hrows (M.matrix[i]) (List.getElem_mem _)
      apply List.ext_getElem
      · simp [hr]
      · intro j h3 h4
        simp [Mat.at, List.getD_eq_getElem?_getD, List.getElem?_eq_getElem h2,
          List.getElem?_eq_getElem h4]

theorem scal_mul_entries_witness :
    (matrix_value mat_square).mat = some mat_square ∧ mat_square.well_formed = true ∧
    (scal_mul_wrapper [.node [] none (some (scalar_value 3)) (-1) NUMBER,
        .node [] none (some (matrix_value mat_square)) (-1) MATRIX] =
      some (some { mat := some (scal_mul mat_square (scalar_value 3).num), num := 0,
                   type := MATRIX }) ∧
    (scal_mul mat_square (scalar_value 3).num).row = mat_square.row ∧
    (scal_mul mat_square (scalar_value 3).num).col = mat_square.col ∧
    (scal_mul mat_square (scalar_value 3).num).well_formed = true ∧
    (∀ i j, i < mat_square.row → j < mat_square.col →
      ∃ m, mat_square.cell? i j = some m ∧
        (scal_mul mat_square (scalar_value 3).num).cell? i j = some ((scalar_value 3).num * m)) ∧
    (scal_mul mat_square 1).matrix = mat_square.matrix ∧
    (scal_mul mat_square 1).row = mat_square.row ∧
    (scal_mul mat_square 1).col = mat_square.col) :=
  ⟨rfl, by decide,
    scal_mul_entries mat_square [] [] none none (-1) (-1) (scalar_value 3)
      (matrix_value mat_square) rfl (by decide)⟩

/-- C20: for matrices `A` and `B` with `A.col = B.row`, `mat_mul_wrapper` returns
the matrix `compose A B`, of shape `A.row x B.col`, whose cell `[i][j]` is the
sum over `k < A.col` of `A[i][k] * B[k][j]` for every `i < A.row`, `j < B.col`
(the reads of `A` and `B` being inside the rows). -/
theorem mat_mul_entries (A B : Mat) (l1 l2 : List Function) (f1 f2 : Option FPtr)
    (n1 n2 : Int) (va vb : Value)
    (hva : va.mat = some A) (hvb : vb.mat = some B)
    (hA : A.well_formed = true) (hB : B.well_formed = true)
    (hmul : A.col = B.row) :
    mat_mul_wrapper [.node l1 f1 (some va) n1 MATRIX, .node l2 f2 (some vb) n2 MATRIX] =
      some (some { mat := some (compose A B), num := 0, type := MATRIX }) ∧
    (compose A B).row = A.row ∧ (compose A B).col = B.col ∧
    (compose A B).well_formed = true ∧
    ∀ i j, i < A.row → j < B.col →
      (compose A B).cell? i j = some (∑ k in Finset.range A.col, A.at i k * B.at k j) ∧
      ∀ k, k < A.col → A.cell? i k = some (A.at i k) ∧ B.cell? k j = some (B.at k j) := by
  refine ⟨?_, rfl, rfl, ?_, ?_⟩
  · simp [mat_mul_wrapper, check_operands, Function.type?, operand_mat, operand_val, hva, hvb,
      mul_dimensions, hmul, Value.zero]
  · rw [compose_eq]; exact well_formed_map_range _ _ _ _
  · intro i j hi hj
    constructor
    · rw [compose_eq, hmul]
      exact cell_map_range _ _ i j _ _ _ _ hi hj
    · intro k hk
      exact ⟨cell_of_well_formed A i k hA hi hk, cell_of_well_formed B k j hB (by omega) hj⟩

theorem mat_mul_entries_witness :
    (matrix_value mat_row_1_2).mat = some mat_row_1_2 ∧
    (matrix_value mat_square).mat = some mat_square ∧
    mat_row_1_2.well_formed = true ∧ mat_square.well_formed = true ∧
    mat_row_1_2.col = mat_square.row ∧
    (mat_mul_wrapper [.node [] none (some (matrix_value mat_row_1_2)) (-1) MATRIX,
        .node [] none (some (matrix_value mat_square)) (-1) MATRIX] =
      some (some { mat := some (compose mat_row_1_2 mat_square), num := 0, type := MATRIX }) ∧
    (compose mat_row_1_2 mat_square).row = mat_row_1_2.row ∧
    (compose mat_row_1_2 mat_square).col = mat_square.col ∧
    (compose mat_row_1_2 mat_square).well_formed = true ∧
    ∀ i j, i < mat_row_1_2.row → j < mat_square.col →
      (compose mat_row_1_2 mat_square).cell? i j =
        some (∑ k in Finset.range mat_row_1_2.col, mat_row_1_2.at i k * mat_square.at k j) ∧
      ∀ k, k < mat_row_1_2.col → mat_row_1_2.cell? i k = some (mat_row_1_2.at i k) ∧
        mat_square.cell? k j = some (mat_square.at k j)) :=
  ⟨rfl, rfl, by decide, by decide, rfl,
    mat_mul_entries mat_row_1_2 mat_square [] [] none none (-1) (-1)
      (matrix_value mat_row_1_2) (matrix_value mat_square) rfl rfl (by decide) (by decide) rfl⟩

/-- The product of the row (1,2) with the square matrix of rows (1,2), (3,4) is
the row (7,10). -/
theorem compose_example : (compose mat_row_1_2 mat_square).matrix = [[7, 10]] := by
  with_unfolding_all rfl

/-! ## Incompatible shapes -/

/-- C18 (counterexample): the calls `MAT_ADD([1,2],[1,2;3,4])` and
`MAT_MUL([1,2],[3,4])` have operands of incompatible shapes. `interpret_line`
still returns a Line for `OUT = ...`, with `v == NULL`, and logs nothing; handed
to `execute_line`, that Line makes it dereference `NULL`. In an assignment the
`NULL` is stored in the Depot, the line reports success and the run goes on to
the end of the script without any diagnostic. -/
theorem dimension_mismatch_reaches_executor :
    interpret_line start_program "OUT = MAT_ADD([1,2],[1,2;3,4])".toList =
      some (some { v := none, name := none, new := false, out := true, type := MATRIX },
            start_program) ∧
    interpret_line start_program "OUT = MAT_MUL([1,2],[3,4])".toList =
      some (some { v := none, name := none, new := false, out := true, type := MATRIX },
            start_program) ∧
    execute_line start_program
      (some { v := none, name := none, new := false, out := true, type := MATRIX }) = none ∧
    (∃ st, run_program start_program
        ["MAT a = [1,2]".toList, "a = MAT_ADD(a,[1,2;3,4])".toList] = some st ∧
      st.stdout = [] ∧ st.err_list = setup_errors ∧ st.line_num = 3 ∧
      query st.table "a".toList = some none) := by
  refine ⟨?_, ?_, rfl, ?_⟩
  · with_unfolding_all rfl
  · with_unfolding_all rfl
  · refine ⟨{ start_program with
        line_num := 3
        table := setup_depot.set (location "a".toList)
          [{ val := none, name := "a".toList, type := MATRIX }] }, ?_, rfl, rfl, rfl, ?_⟩
    · with_unfolding_all rfl
    · with_unfolding_all rfl

/-- C18 (amended): when the shapes of the operands are incompatible
(`MAT_ADD` with different row or column counts, `MAT_MUL` with
`A.col != B.row`), the wrapper does not call the kernel and returns `NULL`, so
`resolve_func` records no value for the call; and `interpret_line` logs no
diagnostic when it returns a Line. -/
theorem dimension_mismatch_returns_null (A B : Mat) (l1 l2 : List Function)
    (f1 f2 : Option FPtr) (va vb : Value)
    (hva : va.mat = some A) (hvb : vb.mat = some B) :
    (¬ (A.row = B.row ∧ A.col = B.col) →
      mat_add_wrapper [.node l1 f1 (some va) (-1) MATRIX, .node l2 f2 (some vb) (-1) MATRIX] =
        some none ∧
      resolve_func (.node [.node l1 f1 (some va) (-1) MATRIX, .node l2 f2 (some vb) (-1) MATRIX]
          (some .mat_add_wrapper) none 2 MATRIX) =
        some (.node [] (some .mat_add_wrapper) none (-1) MATRIX)) ∧
    (A.col ≠ B.row →
      mat_mul_wrapper [.node l1 f1 (some va) (-1) MATRIX, .node l2 f2 (some vb) (-1) MATRIX] =
        some none ∧
      resolve_func (.node [.node l1 f1 (some va) (-1) MATRIX, .node l2 f2 (some vb) (-1) MATRIX]
          (some .mat_mul_wrapper) none 2 MATRIX) =
        some (.node [] (some .mat_mul_wrapper) none (-1) MATRIX)) ∧
    (∀ (st : State) (line : CStr) (L : Line) (st1 : State),
      interpret_line st line = some (some L, st1) → st1 = st) := by
  have hops : resolve_operands 2
      [.node l1 f1 (some va) (-1) MATRIX, .node l2 f2 (some vb) (-1) MATRIX] =
      some [.node l1 f1 (some va) (-1) MATRIX, .node l2 f2 (some vb) (-1) MATRIX] := by
    simp [resolve_operands]
  refine ⟨?_, ?_, ?_⟩
  · intro h
    have hw : mat_add_wrapper
        [.node l1 f1 (some va) (-1) MATRIX, .node l2 f2 (some vb) (-1) MATRIX] = some none := by
      have hd : add_dimensions A B = false := by
        simp only [add_dimensions, Bool.and_eq_false_iff, decide_eq_false_iff_not]
        by_cases hr : A.row = B.row
        · exact Or.inr (fun hc => h ⟨hr, hc⟩)
        · exact Or.inl hr
      simp [mat_add_wrapper, check_operands, Function.type?, operand_mat, operand_val, hva, hvb,
        hd]
    refine ⟨hw, ?_⟩
    simp only [resolve_func]
    have : (2 : Int).toNat = 2 := rfl
    rw [this, hops]
    simp [call_f_ptr, hw]
  · intro h
    have hw : mat_mul_wrapper
        [.node l1 f1 (some va) (-1) MATRIX, .node l2 f2 (some vb) (-1) MATRIX] = some none := by
      simp [mat_mul_wrapper, check_operands, Function.type?, operand_mat, operand_val, hva, hvb,
        mul_dimensions, h]
    refine ⟨hw, ?_⟩
    simp only [resolve_func]
    have : (2 : Int).toNat = 2 := rfl
    rw [this, hops]
    simp [call_f_ptr, hw]
  · intro st line L st1 h
    rcases interpret_line_state st line (some L) st1 h with h1 | ⟨h0, _⟩
    · exact h1
    · cases h0

theorem dimension_mismatch_returns_null_witness :
    (matrix_value mat_row_1_2).mat = some mat_row_1_2 ∧
    (matrix_value mat_single).mat = some mat_single ∧
    ¬ (mat_row_1_2.row = mat_single.row ∧ mat_row_1_2.col = mat_single.col) ∧
    mat_row_1_2.col ≠ mat_single.row ∧
    interpret_line start_program "OUT = MAT_ADD([1,2],[5])".toList =
      some (some { v := none, name := none, new := false, out := true, type := MATRIX },
            start_program) ∧
    mat_add_wrapper [.node [] none (some (matrix_value mat_row_1_2)) (-1) MATRIX,
        .node [] none (some (matrix_value mat_single)) (-1) MATRIX] = some none ∧
    resolve_func (.node [.node [] none (some (matrix_value mat_row_1_2)) (-1) MATRIX,
        .node [] none (some (matrix_value mat_single)) (-1) MATRIX]
          (some .mat_add_wrapper) none 2 MATRIX) =
        some (.node [] (some .mat_add_wrapper) none (-1) MATRIX) ∧
    mat_mul_wrapper [.node [] none (some (matrix_value mat_row_1_2)) (-1) MATRIX,
        .node [] none (some (matrix_value mat_single)) (-1) MATRIX] = some none ∧
    resolve_func (.node [.node [] none (some (matrix_value mat_row_1_2)) (-1) MATRIX,
        .node [] none (some (matrix_value mat_single)) (-1) MATRIX]
          (some .mat_mul_wrapper) none 2 MATRIX) =
        some (.node [] (some .mat_mul_wrapper) none (-1) MATRIX) ∧
    start_program = start_program :=
  have h := dimension_mismatch_returns_null mat_row_1_2 mat_single [] [] none none
    (matrix_value mat_row_1_2) (matrix_value mat_single) rfl rfl
  have hl : interpret_line start_program "OUT = MAT_ADD([1,2],[5])".toList =
      some (some { v := none, name := none, new := false, out := true, type := MATRIX },
            start_program) := by with_unfolding_all rfl
  ⟨rfl, rfl, by decide, by decide, hl,
    (h.1 (by decide)).1, (h.1 (by decide)).2, (h.2.1 (by decide)).1, (h.2.1 (by decide)).2,
    h.2.2 start_program "OUT = MAT_ADD([1,2],[5])".toList _ start_program hl⟩

/-! ## A script with `MAT_ADD` -/

/-- The script `MAT a = [1,2]`, `MAT b = [3,4]`, `MAT c = MAT_ADD(a,b)` runs to
its end and leaves `a` and `b` bound to the matrices they were declared with and
`c` bound to their sum. -/
theorem mat_add_script :
    ∃ st, run_program start_program
        ["MAT a = [1,2]".toList, "MAT b = [3,4]".toList, "MAT c = MAT_ADD(a,b)".toList] =
          some st ∧
      st.stdout = [] ∧
      query st.table "a".toList = some (some (matrix_value mat_row_1_2)) ∧
      query st.table "b".toList = some (some (matrix_value mat_row_3_4)) ∧
      query st.table "c".toList =
        some (some (matrix_value { matrix := [[4, 6]], row := 1, col := 2, valid := true })) := by
  refine ⟨{ start_program with
      line_num := 4
      table := ((setup_depot.set (location "a".toList)
          [{ val := some (matrix_value mat_row_1_2), name := "a".toList, type := MATRIX }]).set
        (location "b".toList)
          [{ val := some (matrix_value mat_row_3_4), name := "b".toList, type := MATRIX }]).set
        (location "c".toList)
          [{ val := some (matrix_value { matrix := [[4, 6]], row := 1, col := 2, valid := true }),
             name := "c".toList, type := MATRIX }] }, ?_, rfl, ?_, ?_, ?_⟩
  · with_unfolding_all rfl
  · with_unfolding_all rfl
  · with_unfolding_all rfl
  · with_unfolding_all rfl

/-! ## Depot: reassignment and collisions -/

theorem getD_set_bucket (table : Depot) (i j : Nat) (chain : List Variable) :
    (table.set i chain).getD j [] =
      if i = j ∧ i < table.length then chain else table.getD j [] := by
  simp only [List.getD_eq_getElem?_getD, List.getElem?_set]
  by_cases hij : i = j
  · subst hij
    by_cases hl : i < table.length
    · simp [hl]
    · have hn : table[i]? = none := List.getElem?_eq_none (by omega)
      simp [hl, hn]
  · simp [hij]

theorem query_chain_reassign_same (n : CStr) (newVal w : Option Value) (chain : List Variable)
    (h : query_chain n chain = some w) :
    query_chain n (reassign_chain n newVal chain) = some newVal := by
  induction chain with
  | nil => simp [query_chain] at h
  | cons x xs ih =>
    simp only [query_chain, reassign_chain] at h ⊢
    by_cases hx : x.name = n
    · simp [hx]
    · simp only [hx, if_false] at h ⊢
      exact ih h

theorem query_chain_reassign_other (n m : CStr) (newVal : Option Value) (chain : List Variable)
    (h : m ≠ n) :
    query_chain m (reassign_chain n newVal chain) = query_chain m chain := by
  induction chain with
  | nil => rfl
  | cons x xs ih =>
    simp only [query_chain, reassign_chain]
    by_cases hx : x.name = n
    · have hm : ¬ x.name = m := fun e => h (e.symm.trans hx)
      simp [hx, hm, ih, h.symm]
    · simp only [hx, if_false, ih]

/-- C23: for a name `n` bound in the Depot and a value `v`, `query(n)` after
`reassign(n, v)` returns `v`, and for every other name `m` the result of
`query(m)` is what it was before the call. -/
theorem reassign_then_query (table : Depot) (n : CStr) (w : Option Value) (v : Value)
    (hb : query table n = some w) :
    query (reassign table n (some v)) n = some (some v) ∧
    ∀ m : CStr, m ≠ n → query (reassign table n (some v)) m = query table m := by
  have hlen : location n < table.length := by
    by_contra hl
    have : table.getD (location n) [] = [] := by
      simp only [List.getD_eq_getElem?_getD]
      rw [List.getElem?_eq_none (by omega)]
      rfl
    unfold query at hb
    rw [this] at hb
    simp [query_chain] at hb
  constructor
  · unfold query reassign
    rw [getD_set_bucket]
    simp only [hlen, and_self, if_true]
    exact query_chain_reassign_same n (some v) w _ hb
  · intro m hm
    unfold query reassign
    rw [getD_set_bucket]
    by_cases hl : location n = location m
    · simp only [hl, true_and]
      rw [hl] at hlen
      simp only [hlen, if_true]
      exact query_chain_reassign_other n m (some v) _ hm
    · simp [hl]

theorem reassign_then_query_witness :
    query (setup_depot.set (location "x".toList)
        [{ val := some (scalar_value 5), name := "x".toList, type := NUMBER }]) "x".toList =
      some (some (scalar_value 5)) ∧
    (query (reassign (setup_depot.set (location "x".toList)
        [{ val := some (scalar_value 5), name := "x".toList, type := NUMBER }]) "x".toList
        (some (scalar_value 7))) "x".toList = some (some (scalar_value 7)) ∧
    ∀ m : CStr, m ≠ "x".toList →
      query (reassign (setup_depot.set (location "x".toList)
        [{ val := some (scalar_value 5), name := "x".toList, type := NUMBER }]) "x".toList
        (some (scalar_value 7))) m =
      query (setup_depot.set (location "x".toList)
        [{ val := some (scalar_value 5), name := "x".toList, type := NUMBER }]) m) :=
  ⟨by with_unfolding_all rfl,
    reassign_then_query _ "x".toList (some (scalar_value 5)) (scalar_value 7)
      (by with_unfolding_all rfl)⟩

/-- A `store` under a name drops every other binding of the same bucket:
`query` for another name of that bucket has no defined result afterwards. -/
theorem store_colliding (table t : Depot) (a b : CStr) (v : Value)
    (hlen : table.length = HASHSIZE) (hab : a ≠ b) (hloc : location a = location b)
    (hs : store table a (some v) = some t) : query t b = none := by
  simp only [store, Option.some.injEq] at hs
  subst hs
  have hl : location a < table.length := by rw [hlen]; exact location_lt a
  unfold query
  rw [getD_set_bucket, ← hloc]
  simp [hl, query_chain, hab]

/-- C24 (evaluation at the names `m1` and `x1`, which hash to the same bucket):
after `store(m1, 1)` the name `m1` is found, but after a following
`store(x1, 2)` the bucket holds `x1` alone and `query(m1)` runs off the end of
the chain without a result; in the other order it is `x1` that is lost. The
script `NUM m1 = 1`, `NUM x1 = 2`, `OUT = m1` has no defined behaviour. -/
theorem store_drops_colliding_binding :
    "m1".toList ≠ "x1".toList ∧ location "m1".toList = location "x1".toList ∧
    (store setup_depot "m1".toList (some (scalar_value 1))).bind
      (fun t => query t "m1".toList) = some (some (scalar_value 1)) ∧
    ((store setup_depot "m1".toList (some (scalar_value 1))).bind
      (fun t => store t "x1".toList (some (scalar_value 2)))).map
      (fun t => (query t "m1".toList, query t "x1".toList)) =
        some (none, some (some (scalar_value 2))) ∧
    ((store setup_depot "x1".toList (some (scalar_value 2))).bind
      (fun t => store t "m1".toList (some (scalar_value 1)))).map
      (fun t => (query t "m1".toList, query t "x1".toList)) =
        some (some (some (scalar_value 1)), none) ∧
    run_program start_program ["NUM m1 = 1".toList, "NUM x1 = 2".toList, "OUT = m1".toList] =
      none := by
  refine ⟨by decide, by decide, ?_, ?_, ?_, ?_⟩
  · with_unfolding_all rfl
  · with_unfolding_all rfl
  · with_unfolding_all rfl
  · with_unfolding_all rfl

/-! ## Declarations of the other kind -/

/-- C25 (evaluation at the line `NUM x = [1,2,3]`): the line is a Declare
statement of kind `NUM` whose expression is a matrix literal, so the kind of its
value differs from the declared kind. To build the value, `interpret_mat` is
handed `1,2,3]`, finds the dimensions 1 and 3, allocates an array of 3 cells and
makes 4 stores into it: the last one, at index 3, is past the block, and it is
made before `interpret_line` reaches the comparison of the two kinds. -/
theorem mismatched_literal_past_block :
    validate_tokens (tokenize_line "NUM x = [1,2,3]".toList).cells = true ∧
    tok (tokenize_line "NUM x = [1,2,3]".toList).cells 0 = some "NUM".toList ∧
    tok (tokenize_line "NUM x = [1,2,3]".toList).cells 3 = some "[1,2,3]".toList ∧
    val_type "[1,2,3]".toList = 1 ∧
    (interpret_declaration "[1,2,3]".toList).map (fun v => v.type) = some MATRIX ∧
    MATRIX ≠ NUMBER ∧
    substring "[1,2,3]".toList 1 ((("[1,2,3]".toList.length + 1 : Nat) : Int) - 1) =
      some "1,2,3]".toList ∧
    dimension_string_mat "1,2,3]".toList = (1, 3) ∧
    interpret_mat_arr "1,2,3]".toList = ([1, 2, 3, 0], 4) ∧
    1 * 3 < (interpret_mat_arr "1,2,3]".toList).2 := by
  refine ⟨by decide, by decide, by decide, by decide, ?_, by decide, by decide, ?_, ?_, ?_⟩
  · with_unfolding_all rfl
  · with_unfolding_all rfl
  · with_unfolding_all rfl
  · with_unfolding_all decide

/-! ## The error log -/

theorem add_error_all (es : List (ERR_TYPE × Int)) (l : List Error)
    (h : ∀ e ∈ es, e.1 ≠ ERR_TYPE.END) :
    es.foldl (fun err_list e => add_error err_list e.1 e.2) l =
      es.reverse.map (fun e => ({ err := e.1, line_num := e.2 } : Error)) ++ l := by
  induction es generalizing l with
  | nil => simp
  | cons e rest ih =>
    have he : e.1 ≠ ERR_TYPE.END := h e (by simp)
    simp only [List.foldl_cons, List.reverse_cons, List.map_append, List.map_cons, List.map_nil,
      List.append_assoc]
    rw [ih _ (fun x hx => h x (by simp [hx]))]
    simp [add_error, he]

theorem deconstruct_stack_entries (entries : List Error)
    (h : ∀ e ∈ entries, e.err ≠ ERR_TYPE.END) :
    deconstruct_stack (entries ++ setup_errors) =
      some ((entries.map (fun e => prnt_err_msg e.err e.line_num)).flatten) := by
  induction entries with
  | nil => simp [deconstruct_stack, setup_errors]
  | cons e rest ih =>
    have he : e.err ≠ ERR_TYPE.END := h e (by simp)
    have hr := ih (fun x hx => h x (by simp [hx]))
    rw [List.cons_append, deconstruct_stack]
    simp only [he, if_false, hr]
    simp

/-- C26: after `setup_errors` and `add_error` for the diagnostics `e1, ..., en`
(none of kind `END`), `deconstruct_stack` reports `en, ..., e1` in that order,
each with the line number it was added with, and stops at the `END` entry. -/
theorem drain_most_recent_first (es : List (ERR_TYPE × Int))
    (h : ∀ e ∈ es, e.1 ≠ ERR_TYPE.END) :
    deconstruct_stack (log_all es) =
      some ((es.reverse.map (fun e => prnt_err_msg e.1 e.2)).flatten) := by
  unfold log_all
  rw [add_error_all es _ h, deconstruct_stack_entries]
  · simp only [List.map_map]
    rfl
  · intro e he
    simp only [List.mem_map, List.mem_reverse] at he
    obtain ⟨x, hx, rfl⟩ := he
    exact h x hx

theorem drain_most_recent_first_witness :
    (∀ e ∈ [(ERR_TYPE.BAD_LINE, (1 : Int)), (ERR_TYPE.WRONG_PARAMS, 2), (ERR_TYPE.BAD_LINE, 3)],
      e.1 ≠ ERR_TYPE.END) ∧
    log_all [(ERR_TYPE.BAD_LINE, 1), (ERR_TYPE.WRONG_PARAMS, 2), (ERR_TYPE.BAD_LINE, 3)] =
      [{ err := .BAD_LINE, line_num := 3 }, { err := .WRONG_PARAMS, line_num := 2 },
       { err := .BAD_LINE, line_num := 1 }, { err := .END, line_num := 0 }] ∧
    ([(ERR_TYPE.BAD_LINE, (1 : Int)), (ERR_TYPE.WRONG_PARAMS, 2),
        (ERR_TYPE.BAD_LINE, 3)].reverse.map (fun e => prnt_err_msg e.1 e.2)).flatten =
      [Printed.malformed 3, Printed.wrong_params 2, Printed.malformed 1] ∧
    deconstruct_stack
        (log_all [(ERR_TYPE.BAD_LINE, 1), (ERR_TYPE.WRONG_PARAMS, 2), (ERR_TYPE.BAD_LINE, 3)]) =
      some (([(ERR_TYPE.BAD_LINE, (1 : Int)), (ERR_TYPE.WRONG_PARAMS, 2),
        (ERR_TYPE.BAD_LINE, 3)].reverse.map (fun e => prnt_err_msg e.1 e.2)).flatten) :=
  ⟨by decide, by decide, by decide,
    drain_most_recent_first
      [(ERR_TYPE.BAD_LINE, 1), (ERR_TYPE.WRONG_PARAMS, 2), (ERR_TYPE.BAD_LINE, 3)] (by decide)⟩

/-- C27 (evaluation at the kind `NO_DECL`): `prnt_err_msg` prints two lines for
it, its own message and then `Unknown error` (the case has no `break`), so a log
with one `NO_DECL` entry is drained into two messages. For `WRONG_PARAMS` and
`BAD_LINE` it prints one line. -/
theorem no_decl_prints_two_lines :
    prnt_err_msg .NO_DECL 3 = [Printed.no_decl, Printed.unknown] ∧
    (prnt_err_msg .NO_DECL 3).length = 2 ∧
    log_all [(ERR_TYPE.NO_DECL, 3)] =
      [{ err := .NO_DECL, line_num := 3 }, { err := .END, line_num := 0 }] ∧
    deconstruct_stack (log_all [(ERR_TYPE.NO_DECL, 3)]) =
      some [Printed.no_decl, Printed.unknown] ∧
    (∀ ln : Int, (prnt_err_msg .WRONG_PARAMS ln).length = 1 ∧
      (prnt_err_msg .BAD_LINE ln).length = 1) := by
  refine ⟨rfl, rfl, by decide, by decide, fun ln => ⟨rfl, rfl⟩⟩

/-! ## Kind tags of the Depot -/

theorem kinds_agree_setup : kinds_agree setup_depot = true := by
  simp [kinds_agree, setup_depot]

/-- `store` keeps the kind tags in step with the values: it sets the tag of the
variable it creates from the value it stores. -/
theorem kinds_agree_store (table t : Depot) (name : CStr) (v : Value)
    (h : kinds_agree table = true) (hs : store table name (some v) = some t) :
    kinds_agree t = true := by
  simp only [store, Option.some.injEq] at hs
  subst hs
  simp only [kinds_agree, List.all_eq_true] at h ⊢
  intro bucket hb var hv
  rcases List.mem_or_eq_of_mem_set hb with hin | heq
  · exact h bucket hin var hv
  · subst heq
    simp only [List.mem_singleton] at hv
    subst hv
    simp

/-- C30 (evaluation at the script `NUM x = 5`, `x = [1,2]`): the kind tags agree
with the values in the empty Depot and after the declaration, but `reassign`
replaces the value of `x` and leaves its tag: after the second line `x` is
tagged `NUMBER` and holds a Matrix value. -/
theorem reassign_keeps_stale_kind :
    kinds_agree setup_depot = true ∧
    (∃ st1 st2,
      run_single_line start_program "NUM x = 5".toList = some (true, st1) ∧
      kinds_agree st1.table = true ∧
      run_single_line st1 "x = [1,2]".toList = some (true, st2) ∧
      st2.table.getD (location "x".toList) [] =
        [{ val := some (matrix_value mat_row_1_2), name := "x".toList, type := NUMBER }] ∧
      kinds_agree st2.table = false) ∧
    kinds_agree (reassign (setup_depot.set (location "x".toList)
        [{ val := some (scalar_value 5), name := "x".toList, type := NUMBER }]) "x".toList
        (some (matrix_value mat_row_1_2))) = false := by
  refine ⟨kinds_agree_setup, ⟨{ start_program with
      table := setup_depot.set (location "x".toList)
        [{ val := some (scalar_value 5), name := "x".toList, type := NUMBER }] },
    { start_program with
      table := setup_depot.set (location "x".toList)
        [{ val := some (matrix_value mat_row_1_2), name := "x".toList, type := NUMBER }] },
    ?_, ?_, ?_, ?_, ?_⟩, ?_⟩
  · with_unfolding_all rfl
  · with_unfolding_all rfl
  · with_unfolding_all rfl
  · with_unfolding_all rfl
  · with_unfolding_all rfl
  · with_unfolding_all rfl

/-! ## SOLVE -/

/-- C22 (evaluation at the system `[2,1,5;1,-1,1]`): `solve_wrapper` hands the
system to `backsubstitution` first, which gives the column (3,-1), and then runs
`elimination` on that column, which gives (3,0). The value returned is the 2x1
matrix (3,0), it does not satisfy the first equation (2*3 + 1*0 is 6, not 5),
while `backsubstitution` of the `elimination` of the system is (2,1). -/
theorem solve_wrapper_order :
    solve_wrapper [.node [] none (some (matrix_value system_2_3)) (-1) MATRIX] =
      some (some (matrix_value { matrix := [[3], [0]], row := 2, col := 1, valid := true })) ∧
    backsubstitution system_2_3 =
      some { matrix := [[3], [-1]], row := 2, col := 1, valid := true } ∧
    elimination { matrix := [[3], [-1]], row := 2, col := 1, valid := true } =
      { matrix := [[3], [0]], row := 2, col := 1, valid := true } ∧
    system_2_3.at 0 0 * 3 + system_2_3.at 0 1 * 0 ≠ system_2_3.at 0 2 ∧
    backsubstitution (elimination system_2_3) =
      some { matrix := [[2], [1]], row := 2, col := 1, valid := true } ∧
    (interpret_line start_program "OUT = SOLVE([2,1,5;1,-1,1])".toList).map Prod.fst =
      some (some { v := some (matrix_value
                      { matrix := [[3], [0]], row := 2, col := 1, valid := true }),
                   name := none, new := false, out := true, type := MATRIX }) := by
  refine ⟨?_, ?_, ?_, ?_, ?_, ?_⟩
  · with_unfolding_all rfl
  · with_unfolding_all rfl
  · with_unfolding_all rfl
  · with_unfolding_all decide
  · with_unfolding_all rfl
  · with_unfolding_all rfl

/-! ## Transpose -/

theorem blocks_flatten (lines : Nat) (f : Nat → ℚ) :
    ((List.range lines).map (fun j => (List.range LINE).map (fun d => f (j * LINE + d)))).flatten =
      (List.range (lines * LINE)).map f := by
  induction lines with
  | zero => simp
  | succ l ih =>
    rw [List.range_succ, List.map_append, List.flatten_append, ih, Nat.succ_mul,
      List.range_add, List.map_append]
    simp [List.map_map, Function.comp]

theorem transpose_row (mat : Mat) (i : Nat) :
    ((List.range (mat.row / LINE)).map (fun j => line_transpose mat (j * LINE) i)).flatten ++
      (List.range (mat.row - mat.row / LINE * LINE)).map
        (fun d => mat.at (mat.row / LINE * LINE + d) i) =
    (List.range mat.row).map (fun k => mat.at k i) := by
  have hb := blocks_flatten (mat.row / LINE) (fun k => mat.at k i)
  simp only [line_transpose]
  rw [hb]
  have hle : mat.row / LINE * LINE ≤ mat.row := Nat.div_mul_le_self _ _
  have hsplit : mat.row = mat.row / LINE * LINE + (mat.row - mat.row / LINE * LINE) := by omega
  conv_rhs => rw [hsplit, List.range_add, List.map_append]
  simp [List.map_map, Function.comp]

/-- What `transpose` computes: row `i` of the result holds the cells `[k][i]`
of the argument, for `k` below its row count, whether the row count is a
multiple of `LINE` or not. -/
theorem transpose_eq (mat : Mat) :
    transpose mat =
      { matrix := (List.range mat.col).map (fun i => (List.range mat.row).map
          (fun k => mat.at k i)),
        row := mat.col, col := mat.row, valid := true } := by
  unfold transpose
  simp only
  congr 1
  apply List.map_congr_left
  intro i _
  exact transpose_row mat i

theorem matrix_of_cells (M : Mat) (hM : M.well_formed = true) :
    (List.range M.row).map (fun a => (List.range M.col).map (fun b => M.at a b)) = M.matrix := by
  simp only [Mat.well_formed, Bool.and_eq_true, decide_eq_true_eq, List.all_eq_true] at hM
  obtain ⟨hlen, hrows⟩ := hM
  apply List.ext_getElem
  · simp [hlen]
  · intro i h1 h2
    have hr := hrows (M.matrix[i]) (List.getElem_mem _)
    apply List.ext_getElem
    · simp [hr]
    · intro j h3 h4
      simp [Mat.at, List.getD_eq_getElem?_getD, List.getElem?_eq_getElem h2,
        List.getElem?_eq_getElem h4]

theorem at_map_range (n c i j : Nat) (f : Nat → Nat → ℚ) (r k : Nat) (v : Bool)
    (hi : i < n) (hj : j < c) :
    Mat.at { matrix := (List.range n).map (fun a => (List.range c).map (fun b => f a b)),
             row := r, col := k, valid := v } i j = f i j := by
  simp only [Mat.at]
  rw [getD_map_range n i _ _ hi, getD_map_range c j _ _ hj]

/-- C21: for every matrix `M`, whatever its row count is with respect to the
block size `LINE`, `transpose_wrapper` on the operand `M` returns the Matrix
value `transpose M`; `transpose M` has the shape `M.col x M.row`, its cell
`[i][k]` is the cell `[k][i]` of `M`; and `transpose_wrapper` on that result
returns the transpose of the transpose, which has the rows, the row count and
the column count of `M` (and is `M` itself when `M` carries the flag `valid`
that the constructors set). -/
theorem transpose_involution (M : Mat) (l1 l2 : List Function) (f1 f2 : Option FPtr)
    (n1 n2 : Int) (v : Value) (hv : v.mat = some M) (hM : M.well_formed = true) :
    transpose_wrapper [.node l1 f1 (some v) n1 MATRIX] =
      some (some { mat := some (transpose M), num := 0, type := MATRIX }) ∧
    transpose_wrapper
        [.node l2 f2 (some { mat := some (transpose M), num := 0, type := MATRIX }) n2 MATRIX] =
      some (some { mat := some (transpose (transpose M)), num := 0, type := MATRIX }) ∧
    (transpose M).row = M.col ∧ (transpose M).col = M.row ∧
    (transpose M).well_formed = true ∧
    (∀ i k, i < M.col → k < M.row →
      ∃ m, M.cell? k i = some m ∧ (transpose M).cell? i k = some m) ∧
    (transpose (transpose M)).matrix = M.matrix ∧
    (transpose (transpose M)).row = M.row ∧ (transpose (transpose M)).col = M.col ∧
    (M.valid = true → transpose (transpose M) = M) := by
  have hmat : (transpose (transpose M)).matrix = M.matrix := by
    rw [transpose_eq (transpose M)]
    have hr : (transpose M).row = M.col := rfl
    have hc : (transpose M).col = M.row := rfl
    simp only [hr, hc]
    rw [← matrix_of_cells M hM]
    apply List.map_congr_left
    intro a ha
    apply List.map_congr_left
    intro b hb
    simp only [List.mem_range] at ha hb
    rw [transpose_eq]
    exact at_map_range _ _ b a _ _ _ _ hb ha
  refine ⟨?_, ?_, rfl, rfl, ?_, ?_, hmat, rfl, rfl, ?_⟩
  · simp [transpose_wrapper, check_operands, Function.type?, operand_mat, operand_val, hv,
      Value.zero]
  · simp [transpose_wrapper, check_operands, Function.type?, operand_mat, operand_val,
      Value.zero]
  · rw [transpose_eq]; exact well_formed_map_range _ _ _ _
  · intro i k hi hk
    refine ⟨M.at k i, cell_of_well_formed M k i hM hk hi, ?_⟩
    rw [transpose_eq]
    exact cell_map_range _ _ i k _ _ _ _ hi hk
  · intro hvalid
    have h1 : (transpose (transpose M)).row = M.row := rfl
    have h2 : (transpose (transpose M)).col = M.col := rfl
    have h3 : (transpose (transpose M)).valid = M.valid := by rw [hvalid]; rfl
    cases hT : transpose (transpose M) with
    | mk m r c vd =>
      cases M with
      | mk m0 r0 c0 vd0 =>
        rw [hT] at hmat h1 h2 h3
        simp only at hmat h1 h2 h3
        subst hmat h1 h2 h3
        rfl

theorem transpose_involution_witness :
    (matrix_value mat_5_2).mat = some mat_5_2 ∧
    mat_5_2.well_formed = true ∧
    (transpose mat_5_2).matrix = [[1, 3, 5, 7, 9], [2, 4, 6, 8, 10]] ∧
    (transpose_wrapper [.node [] none (some (matrix_value mat_5_2)) (-1) MATRIX] =
      some (some { mat := some (transpose mat_5_2), num := 0, type := MATRIX }) ∧
    transpose_wrapper
        [.node [] none (some { mat := some (transpose mat_5_2), num := 0, type := MATRIX })
          (-1) MATRIX] =
      some (some { mat := some (transpose (transpose mat_5_2)), num := 0, type := MATRIX }) ∧
    (transpose mat_5_2).row = mat_5_2.col ∧ (transpose mat_5_2).col = mat_5_2.row ∧
    (transpose mat_5_2).well_formed = true ∧
    (∀ i k, i < mat_5_2.col → k < mat_5_2.row →
      ∃ m, mat_5_2.cell? k i = some m ∧ (transpose mat_5_2).cell? i k = some m) ∧
    (transpose (transpose mat_5_2)).matrix = mat_5_2.matrix ∧
    (transpose (transpose mat_5_2)).row = mat_5_2.row ∧
    (transpose (transpose mat_5_2)).col = mat_5_2.col ∧
    (mat_5_2.valid = true → transpose (transpose mat_5_2) = mat_5_2)) :=
  ⟨rfl, by decide, by with_unfolding_all rfl,
    transpose_involution mat_5_2 [] [] none none (-1) (-1) (matrix_value mat_5_2) rfl
      (by decide)⟩

/-! ## Back substitution -/

theorem foldl_range_sub (m : Nat) (g : Nat → ℚ) (init : ℚ) :
    (List.range m).foldl (fun x d => x - g d) init = init - ∑ d in Finset.range m, g d := by
  induction m with
  | zero => simp
  | succ k ih =>
    rw [List.range_succ, List.foldl_append, ih, Finset.sum_range_succ]
    simp only [List.foldl_cons, List.foldl_nil]
    ring

theorem getD_set_same (res : List ℚ) (r : Nat) (x : ℚ) (h : r < res.length) :
    (res.set r x).getD r 0 = x := by
  simp [List.getD_eq_getElem?_getD, List.getElem?_set_self h]

theorem getD_set_other (res : List ℚ) (r j : Nat) (x : ℚ) (h : r ≠ j) :
    (res.set r x).getD j 0 = res.getD j 0 := by
  simp [List.getD_eq_getElem?_getD, List.getElem?_set_ne h]

/-- The loop of `backsubstitution` started at row `r` with `c = r - 1`, on a
matrix with non-zero diagonal: it returns, keeps the entries from `r` on, and
the entries it writes satisfy the rows below `r` from the diagonal on. -/
theorem backsub_rows_spec (mat : Mat) (n : Nat) (hd : ∀ k, k < n → mat.at k k ≠ 0) :
    ∀ (r : Nat) (res : List ℚ), r ≤ n → res.length = n →
      ∃ out, backsub_rows mat n r ((r : Int) - 1) res = some out ∧ out.length = n ∧
        (∀ j, r ≤ j → out.getD j 0 = res.getD j 0) ∧
        ∀ k, k < r → mat.at k k * out.getD k 0 +
          ∑ d in Finset.range (n - (k + 1)), mat.at k (k + 1 + d) * out.getD (k + 1 + d) 0 =
          mat.at k n := by
  intro r
  induction r with
  | zero =>
    intro res _ hl
    exact ⟨res, rfl, hl, fun _ _ => rfl, fun k hk => absurd hk (by omega)⟩
  | succ r ih =>
    intro res hr hl
    have hc : ((r + 1 : Nat) : Int) - 1 = (r : Int) := by push_cast; ring
    rw [hc, backsub_rows]
    have hneg : ¬ ((r : Int) < 0) := by omega
    have hlt : r < res.length := by omega
    simp only [hneg, if_false, Int.toNat_ofNat, hlt, if_true]
    rw [foldl_range_sub]
    obtain ⟨out, ho, hlen, hkeep, heq⟩ := ih (res.set r
      ((mat.at r n - ∑ d in Finset.range (n - (r + 1)),
          mat.at r (r + 1 + d) * res.getD (r + 1 + d) 0) / mat.at r r))
      (by omega) (by simp [hl])
    refine ⟨out, ho, hlen, ?_, ?_⟩
    · intro j hj
      rw [hkeep j (by omega), getD_set_other _ _ _ _ (by omega)]
    · intro k hk
      rcases Nat.lt_succ_iff_lt_or_eq.mp hk with hlt2 | heq2
      · exact heq k hlt2
      · subst heq2
        rw [hkeep k (le_refl k), getD_set_same _ _ _ hlt]
        have hs : ∑ d in Finset.range (n - (k + 1)),
              mat.at k (k + 1 + d) * out.getD (k + 1 + d) 0 =
            ∑ d in Finset.range (n - (k + 1)),
              mat.at k (k + 1 + d) * res.getD (k + 1 + d) 0 := by
          apply Finset.sum_congr rfl
          intro d _
          rw [hkeep (k + 1 + d) (by omega), getD_set_other _ _ _ _ (by omega)]
        rw [hs, mul_div_cancel₀ _ (hd k (by omega))]
        ring

/-- The divisors of `backsubstitution` are the diagonal cells, from the last
row up. -/
theorem backsub_divisors_diag (mat : Mat) (r : Nat) :
    backsub_divisors mat r ((r : Int) - 1) =
      (List.range r).reverse.map (fun k => mat.at k k) := by
  induction r with
  | zero => rfl
  | succ r ih =>
    have hc : ((r + 1 : Nat) : Int) - 1 = (r : Int) := by push_cast; ring
    have hneg : ¬ ((r : Int) < 0) := by omega
    rw [hc, backsub_divisors]
    simp only [hneg, if_false, Int.toNat_ofNat, ih, List.range_succ, List.reverse_append,
      List.reverse_cons, List.reverse_nil, List.nil_append, List.singleton_append,
      List.map_cons]

theorem at_column (out : List ℚ) (j r c : Nat) (v : Bool) :
    Mat.at { matrix := out.map (fun x => [x]), row := r, col := c, valid := v } j 0 =
      out.getD j 0 := by
  simp only [Mat.at, List.getD_eq_getElem?_getD, List.getElem?_map]
  cases out[j]? <;> simp

/-- On an upper-triangular `n x (n+1)` matrix with non-zero diagonal,
`backsubstitution` returns an `n x 1` column that satisfies every equation. -/
theorem backsubstitution_solves (M : Mat) (n : Nat) (hrow : M.row = n) (hcol : M.col = n + 1)
    (hu : ∀ r j, r < n → j < r → M.at r j = 0) (hd : ∀ k, k < n → M.at k k ≠ 0) :
    ∃ x, backsubstitution M = some x ∧ x.row = n ∧ x.col = 1 ∧ x.well_formed = true ∧
      ∀ r, r < n → ∑ j in Finset.range n, M.at r j * x.at j 0 = M.at r n := by
  obtain ⟨out, ho, hlen, _, heq⟩ :=
    backsub_rows_spec M n hd n (List.replicate n 0) (le_refl n) (by simp)
  have hc0 : ¬ (M.col = 0) := by omega
  have hc1 : M.col - 1 = n := by omega
  refine ⟨{ matrix := out.map (fun x => [x]), row := n, col := 1, valid := true }, ?_, rfl, rfl,
    ?_, ?_⟩
  · simp only [backsubstitution, hc0, if_false, hc1, hrow, ho]
  · simp [Mat.well_formed, hlen]
  · intro r hr
    simp only [at_column]
    have hsplit : ∑ j in Finset.range n, M.at r j * out.getD j 0 =
        ∑ j in Finset.range (r + 1), M.at r j * out.getD j 0 +
        ∑ d in Finset.range (n - (r + 1)), M.at r (r + 1 + d) * out.getD (r + 1 + d) 0 := by
      rw [← Finset.sum_range_add]
      congr 2
      omega
    have hzero : ∑ j in Finset.range r, M.at r j * out.getD j 0 = 0 := by
      apply Finset.sum_eq_zero
      intro j hj
      rw [hu r j hr (Finset.mem_range.mp hj), zero_mul]
    rw [hsplit, Finset.sum_range_succ, hzero, zero_add]
    exact heq r hr

/-- C28: for every well-formed `n x (n+1)` matrix `M` whose cells below the
diagonal are zero and whose diagonal cells are non-zero, `backsubstitution M`
returns an `n x 1` column `x` with, for every row `r`, the sum over `j < n` of
`M[r][j]*x[j][0]` equal to `M[r][n]`, in exact arithmetic; the loop divides `n`
times, by the diagonal cells from the last row up, and none of these divisors is
zero. -/
theorem backsubstitution_correct (M : Mat) (n : Nat) (hM : M.well_formed = true)
    (hrow : M.row = n) (hcol : M.col = n + 1)
    (hu : ∀ r j, r < n → j < r → M.at r j = 0) (hd : ∀ k, k < n → M.at k k ≠ 0) :
    (∃ x, backsubstitution M = some x ∧ x.row = n ∧ x.col = 1 ∧ x.well_formed = true ∧
      ∀ r, r < n → ∑ j in Finset.range n, M.at r j * x.at j 0 = M.at r n) ∧
    (∀ r j, r < n → j < n + 1 → M.cell? r j = some (M.at r j)) ∧
    backsub_divisors M M.row (((M.col - 1 : Nat) : Int) - 1) =
      (List.range n).reverse.map (fun k => M.at k k) ∧
    ∀ d ∈ backsub_divisors M M.row (((M.col - 1 : Nat) : Int) - 1), d ≠ 0 := by
  have hdiv : backsub_divisors M M.row (((M.col - 1 : Nat) : Int) - 1) =
      (List.range n).reverse.map (fun k => M.at k k) := by
    have hc1 : M.col - 1 = n := by omega
    rw [hc1, hrow]
    exact backsub_divisors_diag M n
  refine ⟨backsubstitution_solves M n hrow hcol hu hd, ?_, hdiv, ?_⟩
  · intro r j hr hj
    exact cell_of_well_formed M r j hM (by omega) (by omega)
  · intro d hmem
    rw [hdiv] at hmem
    simp only [List.mem_map, List.mem_reverse, List.mem_range] at hmem
    obtain ⟨k, hk, rfl⟩ := hmem
    exact hd k hk

theorem backsubstitution_correct_witness :
    triangular_2_3.well_formed = true ∧
    backsubstitution triangular_2_3 =
      some { matrix := [[2], [1]], row := 2, col := 1, valid := true } ∧
    ((∃ x, backsubstitution triangular_2_3 = some x ∧ x.row = 2 ∧ x.col = 1 ∧
        x.well_formed = true ∧
        ∀ r, r < 2 → ∑ j in Finset.range 2, triangular_2_3.at r j * x.at j 0 =
          triangular_2_3.at r 2) ∧
      (∀ r j, r < 2 → j < 2 + 1 → triangular_2_3.cell? r j = some (triangular_2_3.at r j)) ∧
      backsub_divisors triangular_2_3 triangular_2_3.row
          (((triangular_2_3.col - 1 : Nat) : Int) - 1) =
        (List.range 2).reverse.map (fun k => triangular_2_3.at k k) ∧
      ∀ d ∈ backsub_divisors triangular_2_3 triangular_2_3.row
          (((triangular_2_3.col - 1 : Nat) : Int) - 1), d ≠ 0) :=
  ⟨by decide, by with_unfolding_all rfl,
    backsubstitution_correct triangular_2_3 2 (by decide) rfl rfl
      (by
        intro r j hr hj
        interval_cases r <;> interval_cases j
        with_unfolding_all rfl)
      (by
        intro k hk
        interval_cases k <;> with_unfolding_all decide)⟩

/-! ## Elimination -/

theorem at_set (m : Mat) (k a b : Nat) (row : List ℚ) (hk : k < m.matrix.length) :
    Mat.at { m with matrix := m.matrix.set k row } a b =
      if a = k then row.getD b 0 else m.at a b := by
  simp only [Mat.at, List.getD_eq_getElem?_getD]
  by_cases h : a = k
  · subst h
    simp [List.getElem?_set_self hk]
  · simp [h, List.getElem?_set_ne (Ne.symm h)]

theorem well_formed_set (m : Mat) (k : Nat) (row : List ℚ) (hm : m.well_formed = true)
    (hl : row.length = m.col) :
    Mat.well_formed { m with matrix := m.matrix.set k row } = true := by
  simp only [Mat.well_formed, Bool.and_eq_true, decide_eq_true_eq, List.all_eq_true] at hm ⊢
  refine ⟨by simp [hm.1], ?_⟩
  intro r hr
  rcases List.mem_or_eq_of_mem_set hr with hin | heq
  · exact hm.2 r hin
  · subst heq
    exact hl

/-- What one step of the inner loop of `elimination` stores: row `k` becomes
`row_i * (-b/a) + row_k`, where `row_i` is the copy of the pivot row taken from
`m0`. -/
theorem eliminate_row_eq (m m0 : Mat) (i k : Nat) (hi : i < m.col) :
    eliminate_row m (sub_matrix m0 1 m.col i 0) i k =
      { m with matrix := m.matrix.set k ((List.range m.col).map
          (fun j => m0.at i j * (-(m.at k i) / m0.at i i) + m.at k j)) } := by
  unfold eliminate_row
  simp only [add_eq, scal_mul_eq, sub_matrix]
  congr 2
  rw [getD_map_range 1 0 _ _ (by omega)]
  apply List.map_congr_left
  intro b hb
  simp only [List.mem_range] at hb
  rw [at_map_range 1 m.col 0 b _ _ _ _ (by omega) hb,
    at_map_range 1 m.col 0 b _ _ _ _ (by omega) hb,
    at_map_range 1 m.col 0 i _ _ _ _ (by omega) hi,
    at_map_range 1 m.col 0 i _ _ _ _ (by omega) hi,
    at_map_range 1 m.col 0 b _ _ _ _ (by omega) hb]
  simp
/-- The inner loop of `elimination` for pivot row `i`, after `t` steps: the rows
`i+1 .. i+t` hold `row_i * (-b/a) + row`, every other row is as before. -/
theorem eliminate_rows_spec (m : Mat) (i : Nat) (hm : m.well_formed = true) (hi : i < m.col) :
    ∀ t, i + 1 + t ≤ m.row →
      ((List.range t).foldl (fun acc d =>
          eliminate_row acc (sub_matrix m 1 m.col i 0) i (i + 1 + d)) m).well_formed = true ∧
      ((List.range t).foldl (fun acc d =>
          eliminate_row acc (sub_matrix m 1 m.col i 0) i (i + 1 + d)) m).row = m.row ∧
      ((List.range t).foldl (fun acc d =>
          eliminate_row acc (sub_matrix m 1 m.col i 0) i (i + 1 + d)) m).col = m.col ∧
      ∀ a b, b < m.col →
        ((List.range t).foldl (fun acc d =>
          eliminate_row acc (sub_matrix m 1 m.col i 0) i (i + 1 + d)) m).at a b =
          if i < a ∧ a < i + 1 + t then m.at i b * (-(m.at a i) / m.at i i) + m.at a b
          else m.at a b := by
  intro t
  induction t with
  | zero =>
    intro _
    refine ⟨hm, rfl, rfl, ?_⟩
    intro a b _
    have : ¬ (i < a ∧ a < i + 1 + 0) := by omega
    simp [this]
  | succ t ih =>
    intro ht
    obtain ⟨hwf, hrow, hcol, hat⟩ := ih (by omega)
    rw [List.range_succ, List.foldl_append]
    simp only [List.foldl_cons, List.foldl_nil]
    generalize (List.range t).foldl (fun acc d =>
      eliminate_row acc (sub_matrix m 1 m.col i 0) i (i + 1 + d)) m = mt at hwf hrow hcol hat ⊢
    have hlen : mt.matrix.length = m.row := by
      have := hwf
      simp only [Mat.well_formed, Bool.and_eq_true, decide_eq_true_eq] at this
      omega
    have hstep := eliminate_row_eq mt m i (i + 1 + t) (by omega)
    rw [show sub_matrix m 1 mt.col i 0 = sub_matrix m 1 m.col i 0 by rw [hcol]] at hstep
    rw [hstep]
    refine ⟨well_formed_set mt _ _ hwf (by simp), hrow, hcol, ?_⟩
    intro a b hb
    rw [at_set mt _ a b _ (by omega)]
    by_cases hak : a = i + 1 + t
    · subst hak
      have h1 : i < i + 1 + t ∧ i + 1 + t < i + 1 + (t + 1) := by omega
      have h2 : ¬ (i < i + 1 + t ∧ i + 1 + t < i + 1 + t) := by omega
      rw [if_pos rfl, if_pos h1, getD_map_range mt.col b _ _ (by omega), hat _ i hi, hat _ b hb,
        if_neg h2, if_neg h2]
    · rw [if_neg hak, hat a b hb]
      by_cases hc : i < a ∧ a < i + 1 + t
      · rw [if_pos hc, if_pos (by omega)]
      · rw [if_neg hc, if_neg (by omega)]

/-- The outer loop body of `elimination` for pivot row `i`: the rows below `i`
hold `row_i * (-b/a) + row`, the rows up to `i` are as before. -/
theorem eliminate_below_spec (m : Mat) (i : Nat) (hm : m.well_formed = true) (hi : i < m.col)
    (hr : i < m.row) :
    (eliminate_below m i).well_formed = true ∧ (eliminate_below m i).row = m.row ∧
    (eliminate_below m i).col = m.col ∧
    ∀ a b, b < m.col → (eliminate_below m i).at a b =
      if i < a ∧ a < m.row then m.at i b * (-(m.at a i) / m.at i i) + m.at a b
      else m.at a b := by
  have h := eliminate_rows_spec m i hm hi (m.row - (i + 1)) (by omega)
  have he : i + 1 + (m.row - (i + 1)) = m.row := by omega
  rw [he] at h
  exact h

theorem elimination_stage_succ (M : Mat) (i : Nat) :
    elimination_stage M (i + 1) = eliminate_below (elimination_stage M i) i := by
  simp [elimination_stage, List.range_succ, List.foldl_append]

/-- Every stage of `elimination` is a well-formed matrix of the shape of the
argument. -/
theorem elimination_stage_shape (M : Mat) (n : Nat) (hrow : M.row = n) (hcol : M.col = n + 1) :
    ∀ i, i ≤ n → (elimination_stage M i).well_formed = true ∧
      (elimination_stage M i).row = n ∧ (elimination_stage M i).col = n + 1 := by
  intro i
  induction i with
  | zero =>
    intro _
    refine ⟨?_, hrow, hcol⟩
    exact well_formed_map_range _ _ _ _
  | succ i ih =>
    intro hi
    obtain ⟨hwf, hr, hc⟩ := ih (by omega)
    rw [elimination_stage_succ]
    obtain ⟨h1, h2, h3, _⟩ := eliminate_below_spec (elimination_stage M i) i hwf (by omega)
      (by omega)
    exact ⟨h1, by omega, by omega⟩

/-- The cells of stage `i + 1` in terms of the cells of stage `i`. -/
theorem elimination_stage_step (M : Mat) (n : Nat) (hrow : M.row = n) (hcol : M.col = n + 1)
    (i : Nat) (hi : i < n) (a b : Nat) (hb : b < n + 1) :
    (elimination_stage M (i + 1)).at a b =
      if i < a ∧ a < n then
        (elimination_stage M i).at i b *
          (-((elimination_stage M i).at a i) / (elimination_stage M i).at i i) +
        (elimination_stage M i).at a b
      else (elimination_stage M i).at a b := by
  obtain ⟨hwf, hr, hc⟩ := elimination_stage_shape M n hrow hcol i (by omega)
  rw [elimination_stage_succ]
  obtain ⟨_, _, _, h4⟩ := eliminate_below_spec (elimination_stage M i) i hwf (by omega)
    (by omega)
  rw [h4 a b (by omega), hr]

/-- The rows up to `i` are not written from stage `i` on. -/
theorem elimination_stage_rows_fixed (M : Mat) (n : Nat) (hrow : M.row = n)
    (hcol : M.col = n + 1) (i a b : Nat) (ha : a ≤ i) (hb : b < n + 1) :
    ∀ d, i + d ≤ n → (elimination_stage M (i + d)).at a b = (elimination_stage M i).at a b := by
  intro d
  induction d with
  | zero => intro _; rfl
  | succ d ih =>
    intro hd
    have h := elimination_stage_step M n hrow hcol (i + d) (by omega) a b hb
    have hn : ¬ (i + d < a ∧ a < n) := by omega
    rw [if_neg hn] at h
    rw [← Nat.add_assoc, h, ih (by omega)]

theorem pivot_eq (M : Mat) (n : Nat) (hrow : M.row = n) (hcol : M.col = n + 1) (i : Nat)
    (hi : i < n) : pivot M i = (elimination_stage M i).at i i := by
  obtain ⟨_, _, hc⟩ := elimination_stage_shape M n hrow hcol i (by omega)
  unfold pivot sub_matrix
  rw [at_map_range 1 _ 0 i _ _ _ _ (by omega) (by omega)]
  simp
/-- When the pivots the inner loop divides by are non-zero (those of the
iterations `i` with a row below row `i`), stage `i` of `elimination` has zeros
below the diagonal in the columns before `i`. -/
theorem elimination_stage_zeros (M : Mat) (n : Nat) (hrow : M.row = n) (hcol : M.col = n + 1)
    (hp : ∀ i, i + 1 < n → pivot M i ≠ 0) :
    ∀ i, i ≤ n → ∀ a b, b < i → b < a → a < n → (elimination_stage M i).at a b = 0 := by
  intro i
  induction i with
  | zero => intro _ a b hb; omega
  | succ i ih =>
    intro hi a b hb hba han
    rw [elimination_stage_step M n hrow hcol i (by omega) a b (by omega)]
    by_cases hia : i < a
    · rw [if_pos ⟨hia, han⟩]
      rcases Nat.lt_succ_iff_lt_or_eq.mp hb with hlt | heq
      · rw [ih (by omega) i b hlt hlt (by omega), ih (by omega) a b hlt hba han]
        ring
      · subst heq
        have hpz := hp b (by omega)
        rw [pivot_eq M n hrow hcol b (by omega)] at hpz
        field_simp
        ring
    · have hn : ¬ (i < a ∧ a < n) := by omega
      rw [if_neg hn]
      exact ih (by omega) a b (by omega) hba han

theorem equation_holds_iff (A x : Mat) (n r : Nat) (hc : A.col = n + 1) :
    equation_holds A x r ↔ ∑ j in Finset.range n, A.at r j * x.at j 0 = A.at r n := by
  unfold equation_holds
  rw [hc, Nat.add_sub_cancel]

theorem row_combination (n : Nat) (f g f2 x : Nat → ℚ) (s cf cg c2 : ℚ)
    (h2 : ∀ j, j < n → f2 j = g j * s + f j) (hc : c2 = cg * s + cf)
    (hg : ∑ j in Finset.range n, g j * x j = cg) :
    (∑ j in Finset.range n, f2 j * x j = c2) ↔ (∑ j in Finset.range n, f j * x j = cf) := by
  have hsum : ∑ j in Finset.range n, f2 j * x j =
      s * ∑ j in Finset.range n, g j * x j + ∑ j in Finset.range n, f j * x j := by
    rw [Finset.mul_sum, ← Finset.sum_add_distrib]
    apply Finset.sum_congr rfl
    intro j hj
    rw [h2 j (Finset.mem_range.mp hj)]
    ring
  rw [hsum, hg, hc]
  constructor <;> intro h <;> linarith

/-- Every stage of `elimination` has the solutions of the argument: a row
operation `row_k <- row_i * s + row_k` with `k > i` keeps the solution set,
whatever the factor `s`. -/
theorem elimination_stage_equiv (M : Mat) (n : Nat) (hrow : M.row = n) (hcol : M.col = n + 1)
    (x : Mat) :
    ∀ i, i ≤ n → ((∀ r, r < n → equation_holds M x r) ↔
      ∀ r, r < n → equation_holds (elimination_stage M i) x r) := by
  intro i
  induction i with
  | zero =>
    intro _
    have hrows : ∀ r, r < n →
        (equation_holds M x r ↔ equation_holds (elimination_stage M 0) x r) := by
      intro r hr
      rw [equation_holds_iff M x n r hcol,
        equation_holds_iff (elimination_stage M 0) x n r hcol]
      have hat : ∀ j, j < n + 1 → (elimination_stage M 0).at r j = M.at r j := by
        intro j hj
        simp only [elimination_stage, List.range_zero, List.foldl_nil, sub_matrix]
        rw [at_map_range M.row M.col r j _ _ _ _ (by omega) (by omega)]
        simp
      have hs : ∑ j in Finset.range n, (elimination_stage M 0).at r j * x.at j 0 =
          ∑ j in Finset.range n, M.at r j * x.at j 0 :=
        Finset.sum_congr rfl (fun j hj => by
          rw [hat j (by have := Finset.mem_range.mp hj; omega)])
      rw [hat n (by omega), hs]
    exact ⟨fun h r hr => (hrows r hr).mp (h r hr), fun h r hr => (hrows r hr).mpr (h r hr)⟩
  | succ i ih =>
    intro hi
    rw [ih (by omega)]
    obtain ⟨_, _, hc⟩ := elimination_stage_shape M n hrow hcol i (by omega)
    obtain ⟨_, _, hc2⟩ := elimination_stage_shape M n hrow hcol (i + 1) hi
    have hkeep : ∀ r, r < n → ¬ (i < r) →
        (equation_holds (elimination_stage M (i + 1)) x r ↔
          equation_holds (elimination_stage M i) x r) := by
      intro r hr hir
      rw [equation_holds_iff _ x n r hc, equation_holds_iff _ x n r hc2]
      have hat : ∀ j, j < n + 1 →
          (elimination_stage M (i + 1)).at r j = (elimination_stage M i).at r j := by
        intro j hj
        rw [elimination_stage_step M n hrow hcol i (by omega) r j hj]
        have hn : ¬ (i < r ∧ r < n) := by omega
        rw [if_neg hn]
      have hs : ∑ j in Finset.range n, (elimination_stage M (i + 1)).at r j * x.at j 0 =
          ∑ j in Finset.range n, (elimination_stage M i).at r j * x.at j 0 :=
        Finset.sum_congr rfl (fun j hj => by
          rw [hat j (by have := Finset.mem_range.mp hj; omega)])
      rw [hat n (by omega), hs]
    have hcomb : ∀ r, r < n → i < r → equation_holds (elimination_stage M i) x i →
        (equation_holds (elimination_stage M (i + 1)) x r ↔
          equation_holds (elimination_stage M i) x r) := by
      intro r hr hir hEi
      rw [equation_holds_iff _ x n i hc] at hEi
      rw [equation_holds_iff _ x n r hc, equation_holds_iff _ x n r hc2]
      apply row_combination n (fun j => (elimination_stage M i).at r j)
        (fun j => (elimination_stage M i).at i j)
        (fun j => (elimination_stage M (i + 1)).at r j) (fun j => x.at j 0)
        (-((elimination_stage M i).at r i) / (elimination_stage M i).at i i)
      · intro j hj
        rw [elimination_stage_step M n hrow hcol i (by omega) r j (by omega),
          if_pos ⟨hir, hr⟩]
      · rw [elimination_stage_step M n hrow hcol i (by omega) r n (by omega),
          if_pos ⟨hir, hr⟩]
      · exact hEi
    constructor
    · intro h r hr
      by_cases hir : i < r
      · exact (hcomb r hr hir (h i (by omega))).mpr (h r hr)
      · exact (hkeep r hr hir).mpr (h r hr)
    · intro h r hr
      have hEi := (hkeep i (by omega) (by omega)).mp (h i (by omega))
      by_cases hir : i < r
      · exact (hcomb r hr hir hEi).mp (h r hr)
      · exact (hkeep r hr hir).mp (h r hr)

/-- C29 (counterexample): on the augmented matrix `[1,1,2;1,1,3]` the only pivot
`elimination` divides by is the 1 of iteration 0 (iteration 1 has no row below
it, so its inner loop is empty), and it is non-zero; the result is
`[1,1,2;0,0,1]`, whose last diagonal cell is 0, so `backsubstitution` divides by
zero; and no column satisfies both equations of the matrix, so whatever
`backsubstitution` returns on the result does not satisfy them. -/
theorem elimination_last_pivot_zero :
    system_singular.well_formed = true ∧ system_singular.row = 2 ∧ system_singular.col = 2 + 1 ∧
    (∀ i, i + 1 < 2 → pivot system_singular i ≠ 0) ∧
    pivot system_singular 0 = 1 ∧
    elimination system_singular =
      { matrix := [[1, 1, 2], [0, 0, 1]], row := 2, col := 3, valid := true } ∧
    backsub_divisors (elimination system_singular) (elimination system_singular).row
        ((((elimination system_singular).col - 1 : Nat) : Int) - 1) = [0, 1] ∧
    (∀ x : Mat, ¬ (equation_holds system_singular x 0 ∧ equation_holds system_singular x 1)) ∧
    (∀ x : Mat, backsubstitution (elimination system_singular) = some x →
      ¬ (∀ r, r < 2 → equation_holds system_singular x r)) := by
  have hno : ∀ x : Mat,
      ¬ (equation_holds system_singular x 0 ∧ equation_holds system_singular x 1) := by
    intro x h
    obtain ⟨h0, h1⟩ := h
    have e0 : system_singular.at 0 0 = 1 := by with_unfolding_all rfl
    have e1 : system_singular.at 0 1 = 1 := by with_unfolding_all rfl
    have e2 : system_singular.at 0 2 = 2 := by with_unfolding_all rfl
    have e3 : system_singular.at 1 0 = 1 := by with_unfolding_all rfl
    have e4 : system_singular.at 1 1 = 1 := by with_unfolding_all rfl
    have e5 : system_singular.at 1 2 = 3 := by with_unfolding_all rfl
    have hc : system_singular.col - 1 = 2 := rfl
    simp only [equation_holds, hc, Finset.sum_range_succ, Finset.sum_range_zero, zero_add,
      e0, e1, e2, e3, e4, e5] at h0 h1
    linarith
  refine ⟨by decide, rfl, rfl, ?_, ?_, ?_, ?_, hno, ?_⟩
  · intro i hi
    have h0 : i = 0 := by omega
    subst h0
    with_unfolding_all decide
  · with_unfolding_all rfl
  · with_unfolding_all rfl
  · with_unfolding_all rfl
  · intro x _ hall
    exact hno x ⟨hall 0 (by omega), hall 1 (by omega)⟩

/-- C29 (amended): for every well-formed `n x (n+1)` matrix `M` for which every
pivot that `elimination` divides by is non-zero (the pivot of every iteration
`i` of the outer loop that has a row below row `i`), `elimination M` is a
well-formed matrix of the same shape, its cells below the diagonal are zero, its
diagonal holds the pivots, and a column satisfies every equation of
`elimination M` exactly when it satisfies every equation of `M`; when the last
diagonal cell of the result (the pivot of the last iteration, which
`elimination` does not read) is non-zero as well, `backsubstitution
(elimination M)` returns an `n x 1` column that satisfies every equation of `M`,
in exact arithmetic. `elimination` writes to the copy
`sub_matrix M M.row M.col 0 0` only, which starts with the rows of `M`. -/
theorem elimination_correct (M : Mat) (n : Nat) (hM : M.well_formed = true)
    (hrow : M.row = n) (hcol : M.col = n + 1) (hp : ∀ i, i + 1 < n → pivot M i ≠ 0) :
    (elimination M).row = n ∧ (elimination M).col = n + 1 ∧
    (elimination M).well_formed = true ∧
    (∀ a b, b < a → a < n → (elimination M).cell? a b = some 0) ∧
    (∀ i, i < n → (elimination M).cell? i i = some (pivot M i)) ∧
    (∀ x, (∀ r, r < n → equation_holds M x r) ↔
      ∀ r, r < n → equation_holds (elimination M) x r) ∧
    ((∀ i, i + 1 = n → pivot M i ≠ 0) →
      ∃ x, backsubstitution (elimination M) = some x ∧ x.row = n ∧ x.col = 1 ∧
        x.well_formed = true ∧ ∀ r, r < n → equation_holds M x r) ∧
    (sub_matrix M M.row M.col 0 0).matrix = M.matrix := by
  have he : elimination M = elimination_stage M n := by
    simp only [elimination, elimination_stage, hrow]
  obtain ⟨hwf, hr, hc⟩ := elimination_stage_shape M n hrow hcol n (le_refl n)
  have hzero := elimination_stage_zeros M n hrow hcol hp n (le_refl n)
  have hdiag : ∀ i, i < n → (elimination_stage M n).at i i = pivot M i := by
    intro i hi
    have h := elimination_stage_rows_fixed M n hrow hcol i i i (le_refl i) (by omega) (n - i)
      (by omega)
    rw [show i + (n - i) = n by omega] at h
    rw [h, pivot_eq M n hrow hcol i hi]
  rw [he]
  refine ⟨hr, hc, hwf, ?_, ?_, ?_, ?_, ?_⟩
  · intro a b hba han
    rw [cell_of_well_formed _ a b hwf (by omega) (by omega), hzero a b (by omega) hba han]
  · intro i hi
    rw [cell_of_well_formed _ i i hwf (by omega) (by omega), hdiag i hi]
  · intro x
    exact elimination_stage_equiv M n hrow hcol x n (le_refl n)
  · intro hlast
    have hall : ∀ k, k < n → pivot M k ≠ 0 := by
      intro k hk
      by_cases hk2 : k + 1 < n
      · exact hp k hk2
      · exact hlast k (by omega)
    obtain ⟨x, hx, hxr, hxc, hxwf, hsol⟩ := backsubstitution_solves (elimination_stage M n) n
      hr hc (fun r j hrn hjr => hzero r j (by omega) hjr hrn)
      (fun k hk => by rw [hdiag k hk]; exact hall k hk)
    refine ⟨x, hx, hxr, hxc, hxwf, ?_⟩
    exact (elimination_stage_equiv M n hrow hcol x n (le_refl n)).mpr
      (fun r hrn => (equation_holds_iff _ x n r hc).mpr (hsol r hrn))
  · simp only [sub_matrix, Nat.zero_add]
    exact matrix_of_cells M hM

theorem elimination_correct_witness :
    system_2_3.well_formed = true ∧
    (∀ i, i + 1 < 2 → pivot system_2_3 i ≠ 0) ∧
    (∀ i, i + 1 = 2 → pivot system_2_3 i ≠ 0) ∧
    elimination system_2_3 =
      { matrix := [[2, 1, 5], [0, -3 / 2, -3 / 2]], row := 2, col := 3, valid := true } ∧
    backsubstitution (elimination system_2_3) =
      some { matrix := [[2], [1]], row := 2, col := 1, valid := true } ∧
    ((elimination system_2_3).row = 2 ∧ (elimination system_2_3).col = 2 + 1 ∧
      (elimination system_2_3).well_formed = true ∧
      (∀ a b, b < a → a < 2 → (elimination system_2_3).cell? a b = some 0) ∧
      (∀ i, i < 2 → (elimination system_2_3).cell? i i = some (pivot system_2_3 i)) ∧
      (∀ x, (∀ r, r < 2 → equation_holds system_2_3 x r) ↔
        ∀ r, r < 2 → equation_holds (elimination system_2_3) x r) ∧
      ((∀ i, i + 1 = 2 → pivot system_2_3 i ≠ 0) →
        ∃ x, backsubstitution (elimination system_2_3) = some x ∧ x.row = 2 ∧ x.col = 1 ∧
          x.well_formed = true ∧ ∀ r, r < 2 → equation_holds system_2_3 x r) ∧
      (sub_matrix system_2_3 system_2_3.row system_2_3.col 0 0).matrix = system_2_3.matrix) :=
  ⟨by decide,
    (by
      intro i hi
      have h0 : i = 0 := by omega
      subst h0
      with_unfolding_all decide),
    (by
      intro i hi
      have h1 : i = 1 := by omega
      subst h1
      with_unfolding_all decide),
    by with_unfolding_all rfl, by with_unfolding_all rfl,
    elimination_correct system_2_3 2 (by decide) rfl rfl
      (by
        intro i hi
        have h0 : i = 0 := by omega
        subst h0
        with_unfolding_all decide)⟩

/-! ## The hash of the Depot -/

theorem char_bits_low (c : Char) (h : c.toNat < 128) : char_bits c = c.toNat % 256 := by
  have hb : c.toNat % 256 < 128 := by omega
  simp only [char_bits, hb, if_true]

/-- On bytes below `0x80` the loop of `location` is the FNV-1a loop, from any
starting hash. -/
theorem location_loop_low (s : CStr) (h : ∀ c ∈ s, c.toNat < 128) (hash : Nat) :
    location_loop s hash =
      s.foldl (fun hash c => ((hash ^^^ (c.toNat % 256)) * 16777619) % 2 ^ 32) hash := by
  induction s generalizing hash with
  | nil => rfl
  | cons c rest ih =>
    rw [location_loop, List.foldl_cons, char_bits_low c (h c (List.mem_cons_self c rest))]
    exact ih (fun d hd => h d (List.mem_cons_of_mem c hd)) _

theorem store_length (table t : Depot) (name : CStr) (v : Value)
    (hs : store table name (some v) = some t) : t.length = table.length := by
  simp only [store, Option.some.injEq] at hs
  subst hs
  simp

/-- C31 (evaluation at the one-byte string `0x80`): `char` is signed, so the
byte reaches `hash ^= c` sign-extended to `0xFFFFFF80`; `location` returns the
bucket 122, and the FNV-1a hash of the string, which XORs the byte `0x80`,
is 2232128415, that is 37 modulo 127. -/
theorem location_high_byte_not_fnv1a :
    char_bits (Char.ofNat 128) = 4294967168 ∧
    location_loop high_byte_name 2166136261 = 83079839 ∧
    location high_byte_name = 122 ∧
    fnv1a_reference high_byte_name = 2232128415 ∧
    fnv1a_reference high_byte_name % 127 = 37 ∧
    location high_byte_name ≠ fnv1a_reference high_byte_name % 127 := by
  refine ⟨?_, ?_, ?_, ?_, ?_, ?_⟩ <;> decide

/-- C31 (amended): for every string `s` whose bytes are below `0x80`, the empty
string included, `location(s)` is the 32-bit FNV-1a hash of `s` (offset
2166136261, prime 16777619, arithmetic modulo `2^32`) reduced modulo 127; and
for every string `t`, whatever its bytes, `location(t)` is below 127, hence
below the length of the table of `setup_depot` and of every table that `store`
and `reassign` make from a table of 127 buckets. -/
theorem location_fnv1a_low_bytes (s t : CStr) (h : ∀ c ∈ s, c.toNat < 128) :
    location s = fnv1a_reference s % 127 ∧
    location [] = fnv1a_reference [] % 127 ∧
    location t < 127 ∧
    location t < setup_depot.length ∧
    (∀ (table t2 : Depot) (name : CStr) (v : Value), table.length = HASHSIZE →
      store table name (some v) = some t2 → location t < t2.length) ∧
    (∀ (table : Depot) (name : CStr) (v : Option Value), table.length = HASHSIZE →
      location t < (reassign table name v).length) := by
  refine ⟨?_, rfl, location_lt t, ?_, ?_, ?_⟩
  · simp only [location, fnv1a_reference, location_loop_low s h]
    rfl
  · rw [setup_depot_length]
    exact location_lt t
  · intro table t2 name v hlen hs
    rw [store_length table t2 name v hs, hlen]
    exact location_lt t
  · intro table name v hlen
    simp only [reassign, List.length_set, hlen]
    exact location_lt t

theorem location_fnv1a_low_bytes_witness :
    (∀ c ∈ "m1".toList, c.toNat < 128) ∧
    fnv1a_reference "m1".toList = 2486071275 ∧
    (location "m1".toList = fnv1a_reference "m1".toList % 127 ∧
    location [] = fnv1a_reference [] % 127 ∧
    location high_byte_name < 127 ∧
    location high_byte_name < setup_depot.length ∧
    (∀ (table t2 : Depot) (name : CStr) (v : Value), table.length = HASHSIZE →
      store table name (some v) = some t2 → location high_byte_name < t2.length) ∧
    (∀ (table : Depot) (name : CStr) (v : Option Value), table.length = HASHSIZE →
      location high_byte_name < (reassign table name v).length)) :=
  ⟨by decide, by decide,
    location_fnv1a_low_bytes "m1".toList high_byte_name (by decide)⟩

end OpenMat
